import Mathlib

/-
  Verification of the host AHCI driver (src/vancouver/host/hostahci.cc).

  The driver is shallowly embedded: machine `unsigned` values are Nat with
  explicit `% 2^32` where overflow matters, the per-port DMA structures
  (command list `_cl`, command table `_ct`) are lists of dwords, MMIO
  register writes and register-poll events are recorded in logs, and
  device-supplied register reads are inputs (environment records).
-/

namespace Ahci

/-- `CL_DWORDS` from HostAhciPort: dwords per command-list header. -/
def CL_DWORDS : Nat := 8

/-- `MAX_PRD_COUNT` from HostAhciPort. -/
def MAX_PRD_COUNT : Nat := 64

/-- Clock frequency used by `wait_timeout` (milliseconds). -/
def FREQ : Nat := 1000

/-- `TIMEOUT` from HostAhciPort: 200 ms. -/
def TIMEOUT : Nat := 200

/-- One past the largest 32-bit unsigned value. -/
def U32 : Nat := 2 ^ 32

/-- 32-bit complement, the value of `~x` on `unsigned`. -/
def not32 (x : Nat) : Nat := (U32 - 1) ^^^ (x % U32)

/-- Names of the port MMIO registers written by the driver. -/
inductive RegName
  | clb | clbu | fb | fbu | is | ie | cmd | serr | ci
deriving DecidableEq

/-- A recorded MMIO register write. -/
structure MmioWrite where
  reg : RegName
  value : Nat
deriving DecidableEq

/-- A recorded register poll: `wait_timeout(reg, mask, value)`. -/
structure WaitEvt where
  reg : RegName
  mask : Nat
  value : Nat
deriving DecidableEq

/-- Completion status carried by a MessageDiskCommit (`irq` only ever
sends `MessageDisk::DISK_OK`). -/
inductive DiskStatus
  | ok | error
deriving DecidableEq

/-- A MessageDiskCommit sent on the disk-commit bus. -/
structure Commit where
  disknr : Nat
  usertag : Nat
  status : DiskStatus
deriving DecidableEq

/-- The state of one `HostAhciPort`.  `cl`/`ct` are the command list and
command table dword arrays, `mmio` is the chronological log of port
register writes and `waits` the log of register polls.  `cl_base`,
`ct_base`, `fis_base` are the (virtual) byte addresses of the three DMA
buffers. -/
structure PortState where
  disknr : Nat
  max_slots : Nat
  dmar : Bool
  cl_base : Nat
  ct_base : Nat
  fis_base : Nat
  cl : List Nat
  ct : List Nat
  tag : Nat
  lba48 : Bool
  usertags : List Nat
  inprogress : Nat
  mmio : List MmioWrite
  waits : List WaitEvt
deriving DecidableEq

/-- Host services consumed by the driver: `v2p` is the successful
`OP_VIRT_TO_PHYS` translation (the driver panics when translation
fails, which aborts the program and is not modelled further). -/
structure HostEnv where
  v2p : Nat → Nat

/-- `HostAhciPort::addr2phys`, low dword: the translated (or, with an
IOMMU, untranslated) address stored into `dst[0]`; `dst[1]` is 0. -/
def addr2phys (env : HostEnv) (dmar : Bool) (ptr : Nat) : Nat :=
  if dmar then ptr % U32 else env.v2p ptr % U32

/-- Truncation to `unsigned char`. -/
def byte (x : Nat) : Nat := x % 256

/-- Dword index of slot `tag`'s command table entry inside `_ct`. -/
def ctSlot (tag : Nat) : Nat := tag * (128 + MAX_PRD_COUNT * 16) / 4

/-- Dword index of PRD entry `prd` of slot `tag` inside `_ct`
(`(_tag*(128 + MAX_PRD_COUNT*16) + 0x80 + prd*16) >> 2`). -/
def prdIndex (tag prd : Nat) : Nat := (tag * (128 + MAX_PRD_COUNT * 16) + 0x80 + prd * 16) / 4

/-- `count - 1` on `unsigned` (wraps to 0xFFFFFFFF at `count = 0`). -/
def sub1_32 (count : Nat) : Nat := (count + U32 - 1) % U32

/-- `HostAhciPort::set_command`: build Command Header[`_tag`] and the
20-byte command FIS (stored as 5 little-endian dwords) at the command
table entry of slot `_tag`. -/
def set_command (env : HostEnv) (st : PortState) (command sector : Nat) (read : Bool)
    (count : Nat) (atapi : Bool) (pmp features : Nat) : PortState :=
  let d0 := (if atapi then 0x20 else 0) ||| (if read then 0 else 0x40) ||| 5 |||
      ((pmp &&& 0xf) <<< 12)
  let ctPtr := st.ct_base + st.tag * (128 + MAX_PRD_COUNT * 16)
  let cfis0 := 0x27 + (0x80 ||| (pmp &&& 0xf)) * 0x100 + byte command * 0x10000 +
      byte features * 0x1000000
  let cfis1 := byte sector + byte (sector >>> 8) * 0x100 + byte (sector >>> 16) * 0x10000 +
      0x40 * 0x1000000
  let cfis2 := byte (sector >>> 24) + byte (sector >>> 32) * 0x100 +
      byte (sector >>> 40) * 0x10000 + byte (features >>> 8) * 0x1000000
  let cfis3 := byte count + byte (count >>> 8) * 0x100
  let cl1 := (((st.cl.set (st.tag * CL_DWORDS) d0).set (st.tag * CL_DWORDS + 1) 0).set
      (st.tag * CL_DWORDS + 2) (addr2phys env st.dmar ctPtr)).set (st.tag * CL_DWORDS + 3) 0
  let b := ctSlot st.tag
  let ct1 := ((((st.ct.set b cfis0).set (b + 1) cfis1).set (b + 2) cfis2).set
      (b + 3) cfis3).set (b + 4) 0
  { st with cl := cl1, ct := ct1 }

/-- `HostAhciPort::add_dma`: append a PRD entry for the current slot;
returns `true` (and leaves the state unchanged) on failure. -/
def add_dma (env : HostEnv) (st : PortState) (ptr count : Nat) : Bool × PortState :=
  if count % 2 = 1 ∨ count >>> 22 ≠ 0 then (true, st)
  else
    let prd := st.cl.getD (st.tag * CL_DWORDS) 0 >>> 16
    if MAX_PRD_COUNT ≤ prd then (true, st)
    else
      let cl1 := st.cl.set (st.tag * CL_DWORDS)
          ((st.cl.getD (st.tag * CL_DWORDS) 0 + (1 <<< 16)) % U32)
      let p := prdIndex st.tag prd
      let ct1 := ((st.ct.set p (addr2phys env st.dmar ptr)).set (p + 1) 0).set
          (p + 3) (sub1_32 count)
      (false, { st with cl := cl1, ct := ct1 })

/-- `HostAhciPort::add_prd`: like `add_dma`, but a byte count that is odd
or `≥ 2^22` fires an `assert` (modelled as `none`). -/
def add_prd (env : HostEnv) (st : PortState) (buffer count : Nat) : Option (Bool × PortState) :=
  let prd := st.cl.getD (st.tag * CL_DWORDS) 0 >>> 16
  if count % 2 = 1 then none
  else if count >>> 22 ≠ 0 then none
  else if MAX_PRD_COUNT ≤ prd then some (true, st)
  else
    let cl1 := st.cl.set (st.tag * CL_DWORDS)
        ((st.cl.getD (st.tag * CL_DWORDS) 0 + (1 <<< 16)) % U32)
    let p := prdIndex st.tag prd
    let ct1 := ((st.ct.set p (addr2phys env st.dmar buffer)).set (p + 1) 0).set
        (p + 3) (sub1_32 count)
    some (false, { st with cl := cl1, ct := ct1 })

/-- `HostAhciPort::start_command`: mark the current slot in progress,
remember the caller's tag, write `1 << _tag` to CI and advance `_tag`
round-robin.  Returns the slot used together with the new state. -/
def start_command (st : PortState) (usertag : Nat) : Nat × PortState :=
  (st.tag,
   { st with
      inprogress := st.inprogress ||| (1 <<< st.tag),
      usertags := st.usertags.set st.tag usertag,
      mmio := st.mmio ++ [⟨RegName.ci, (1 <<< st.tag) % U32⟩],
      tag := (st.tag + 1) % st.max_slots })

/-- Record an MMIO register write. -/
def logw (st : PortState) (r : RegName) (v : Nat) : PortState :=
  { st with mmio := st.mmio ++ [⟨r, v % U32⟩] }

/-- Record a register poll (`wait_timeout` call). -/
def logwait (st : PortState) (r : RegName) (mask value : Nat) : PortState :=
  { st with waits := st.waits ++ [⟨r, mask % U32, value % U32⟩] }

/-- Device-side inputs of `identify_drive`: the address of the caller's
512-byte buffer, whether the CI poll timed out, word 2 of the buffer
after the device's PIO data-in, and the outcome of the external
`HostGenericAta::update_params` helper (its error code and the parsed
LBA48 flag). -/
structure IdentEnv where
  bufAddr : Nat
  ciTimeout : Bool
  bufWord2 : Nat
  updateCode : Nat
  lba48Parsed : Bool
deriving DecidableEq

/-- `HostAhciPort::identify_drive`: issue IDENTIFY DEVICE (0xEC) through
the current slot, poll CI, and parse the result.  `none` models the
`assert(buffer[2] == 0xc837)` firing. -/
def identify_drive (env : HostEnv) (ie : IdentEnv) (st : PortState) : Option (Nat × PortState) :=
  let st1 := set_command env st 0xec 0 true 0 false 0 0
  match add_prd env st1 ie.bufAddr 512 with
  | none => none
  | some (_, st2) =>
    let r := start_command st2 0
    let st3 := logwait r.2 RegName.ci (1 <<< r.1) 0
    if ie.ciTimeout then some (1, st3)
    else
      let st4 := { st3 with inprogress := st3.inprogress &&& not32 (1 <<< r.1) }
      if ie.bufWord2 = 0xc837 then some (ie.updateCode, { st4 with lba48 := ie.lba48Parsed })
      else none

/-- `HostAhciPort::set_features`: issue SET FEATURES (0xEF) through the
current slot and poll CI; `ciTimeout` is the poll's outcome. -/
def set_features (env : HostEnv) (ciTimeout : Bool) (st : PortState)
    (features count : Nat) : Nat × PortState :=
  let st1 := set_command env st 0xef 0 false count false 0 features
  let r := start_command st1 0
  let st2 := logwait r.2 RegName.ci (1 <<< r.1) 0
  if ciTimeout then (1, st2)
  else (0, { st2 with inprogress := st2.inprogress &&& not32 (1 <<< r.1) })

/-- Device-side inputs of `init`: the first read of the port CMD
register, the outcomes of the four `wait_timeout` polls, the values of
the subsequent CMD reads used by the read-modify-writes, and the
IDENTIFY environment. -/
structure InitEnv where
  cmd0 : Nat
  stopWait1 : Bool
  stopWait2 : Bool
  creWait : Bool
  cloWait : Bool
  cmdVals : Nat → Nat
  ident : IdentEnv

/-- Tail of `HostAhciPort::init` after the optional stop phase: program
CLB/FB, clear SERR/IS, enable FIS receive, CLO, start, reset
`_inprogress`, enable interrupts and run IDENTIFY. -/
def initRest (env : HostEnv) (ev : InitEnv) (st : PortState) : Option (Nat × PortState) :=
  let s1 := logw st RegName.clb (addr2phys env st.dmar st.cl_base)
  let s2 := logw s1 RegName.clbu 0
  let s3 := logw s2 RegName.fb (addr2phys env st.dmar st.fis_base)
  let s4 := logw s3 RegName.fbu 0
  let s5 := logw s4 RegName.serr (U32 - 1)
  let s6 := logw s5 RegName.is (U32 - 1)
  let s7 := logw s6 RegName.cmd (ev.cmdVals 3 ||| 0x10)
  let s8 := logwait s7 RegName.cmd (1 <<< 15) 0
  if ev.creWait then some (1, s8)
  else
    let s9 := logw s8 RegName.cmd (ev.cmdVals 4 ||| 0x8)
    let s10 := logwait s9 RegName.cmd 0x8 0
    if ev.cloWait then some (1, s10)
    else
      let s11 := logw s10 RegName.cmd (ev.cmdVals 5 ||| 0x1)
      let s12 := { s11 with inprogress := 0 }
      let s13 := logw s12 RegName.ie 0xf98000f1
      identify_drive env ev.ident s13

/-- `HostAhciPort::init`: optional stop phase (when CMD has any of bits
{0,3,14,15} set), then `initRest`.  The `Nat` result is the C return
code (nonzero on a timed-out poll, `update_params`'s code on success);
`none` models the IDENTIFY assert firing. -/
def init (env : HostEnv) (ev : InitEnv) (st : PortState) : Option (Nat × PortState) :=
  if ev.cmd0 &&& 0xc009 ≠ 0 then
    let s1 := logw st RegName.cmd (ev.cmdVals 1 &&& not32 1)
    let s2 := logwait s1 RegName.cmd (1 <<< 15) 0
    if ev.stopWait1 then some (1, s2)
    else
      let s3 := logw s2 RegName.cmd (ev.cmdVals 2 &&& not32 0x10)
      let s4 := logwait s3 RegName.cmd (1 <<< 14) 0
      if ev.stopWait2 then some (1, s4) else initRest env ev s4
  else initRest env ev st

/-- `Cpu::bsf`: index of the least significant set bit (0 for input 0,
on which the hardware result is undefined; `irq` only applies it to
nonzero values). -/
def bsf (n : Nat) : Nat :=
  if n % 2 = 1 then 0
  else if h : n = 0 then 0
  else bsf (n / 2) + 1
decreasing_by exact Nat.div_lt_self (Nat.pos_of_ne_zero h) Nat.one_lt_two

theorem bsf_testBit : ∀ n : Nat, n ≠ 0 → n.testBit (bsf n) = true := by
  intro n
  induction n using Nat.strong_induction_on with
  | _ n ih =>
    intro hn
    rw [bsf]
    by_cases h2 : n % 2 = 1
    · simp [h2, Nat.testBit_zero]
    · have hh : n / 2 ≠ 0 := by
        intro h0
        have := Nat.div_add_mod n 2
        omega
      simp only [h2, if_false, dif_neg hn]
      rw [Nat.testBit_add_one]
      exact ih (n / 2) (Nat.div_lt_self (Nat.pos_of_ne_zero hn) Nat.one_lt_two) hh

theorem bsf_min : ∀ n j : Nat, j < bsf n → n.testBit j = false := by
  intro n
  induction n using Nat.strong_induction_on with
  | _ n ih =>
    intro j hj
    rw [bsf] at hj
    by_cases h2 : n % 2 = 1
    · simp [h2] at hj
    · by_cases hn : n = 0
      · subst hn; exact Nat.zero_testBit j
      · simp only [h2, if_false, dif_neg hn] at hj
        match j with
        | 0 => simpa [Nat.testBit_zero] using h2
        | j + 1 =>
          rw [Nat.testBit_add_one]
          exact ih (n / 2) (Nat.div_lt_self (Nat.pos_of_ne_zero hn) Nat.one_lt_two) j
            (Nat.lt_of_succ_lt_succ hj)

theorem testBit_not32_self (t : Nat) : (not32 (1 <<< t)).testBit t = false := by
  unfold not32 U32
  rw [Nat.testBit_xor, Nat.testBit_two_pow_sub_one, Nat.testBit_mod_two_pow,
    Nat.shiftLeft_eq, one_mul, Nat.testBit_two_pow_self]
  by_cases h : t < 32 <;> simp [h]

theorem and_not32_bsf_lt (done : Nat) (h : done ≠ 0) :
    done &&& not32 (1 <<< bsf done) < done := by
  apply Nat.lt_of_le_of_ne (Nat.and_le_left)
  intro he
  have h1 : (done &&& not32 (1 <<< bsf done)).testBit (bsf done) = false := by
    rw [Nat.testBit_and, testBit_not32_self, Bool.and_false]
  rw [he, bsf_testBit done h] at h1
  exact absurd h1 (by simp)

/-- The completion loop of `HostAhciPort::irq`: for each bit of `done`
(lowest first via `Cpu::bsf`) emit a `MessageDiskCommit` carrying the
stored user tag, invalidate the tag slot (`~0`) and clear the bit in
`_inprogress`.  Returns the emitted commits together with the final
`_usertags` and `_inprogress`. -/
def irqLoop (disknr done : Nat) (ut : List Nat) (ip : Nat) : List Commit × List Nat × Nat :=
  if h : done = 0 then ([], ut, ip)
  else
    (⟨disknr, ut.getD (bsf done) 0, DiskStatus.ok⟩ ::
        (irqLoop disknr (done &&& not32 (1 <<< bsf done)) (ut.set (bsf done) (U32 - 1))
          (ip &&& not32 (1 <<< bsf done))).1,
      (irqLoop disknr (done &&& not32 (1 <<< bsf done)) (ut.set (bsf done) (U32 - 1))
          (ip &&& not32 (1 <<< bsf done))).2)
termination_by done
decreasing_by all_goals exact and_not32_bsf_lt done h

/-- Device-side inputs of `irq`: the values read from the port IS, CI
and TFD registers, plus the environment for the recovery `init` run
when TFD.ERR is set. -/
structure IrqEnv where
  isv : Nat
  civ : Nat
  tfdv : Nat
  initEv : InitEnv

/-- `HostAhciPort::irq`: acknowledge IS, run the completion loop over
`_inprogress & ~CI`, and on TFD bit 0 re-run `init`.  Returns the
emitted commits and the final state (`none` when the recovery `init`
hits the IDENTIFY assert). -/
def irq (env : HostEnv) (ev : IrqEnv) (st : PortState) : Option (List Commit × PortState) :=
  let s1 := logw st RegName.is ev.isv
  let r := irqLoop s1.disknr (s1.inprogress &&& not32 ev.civ) s1.usertags s1.inprogress
  let s2 := { s1 with usertags := r.2.1, inprogress := r.2.2 }
  if ev.tfdv &&& 1 = 1 then
    match init env ev.initEv s2 with
    | none => none
    | some rr => some (r.1, rr.2)
  else some (r.1, s2)

/-- One scatter/gather descriptor (`DmaDescriptor`). -/
structure DmaDesc where
  byteoffset : Nat
  bytecount : Nat
deriving DecidableEq

/-- The `MessageDisk` request types handled by `receive`; `other`
stands for any further type, on which the code panics. -/
inductive DiskOp
  | read | write | flush_cache | get_params | other
deriving DecidableEq

/-- A `MessageDisk` request (`dmacount` is the length of `dma`). -/
structure MessageDisk where
  type : DiskOp
  disknr : Nat
  usertag : Nat
  sector : Nat
  dma : List DmaDesc
  physoffset : Nat
  physsize : Nat
deriving DecidableEq

/-- Modelled from the spec: `DmaDescriptor::sum_length` (declared in a
header outside src/) — the total transfer length is the sum of the
descriptor byte counts, accumulated in an `unsigned long`. -/
def sum_length (dma : List DmaDesc) : Nat :=
  (dma.foldl (fun a d => a + d.bytecount) 0) % U32

/-- The descriptor loop of `receive` (DISK_READ/DISK_WRITE): bounds
check each descriptor against `[0, physsize)` and append it as a PRD;
returns `true` together with the partially updated state when a
descriptor is rejected. -/
def dmaLoop (env : HostEnv) (physoffset physsize : Nat) :
    List DmaDesc → PortState → Bool × PortState
  | [], st => (false, st)
  | d :: rest, st =>
    if physsize < d.byteoffset ∨ physsize < (d.byteoffset + d.bytecount) % U32 then (true, st)
    else
      let r := add_dma env st ((physoffset + d.byteoffset) % U32) d.bytecount
      if r.1 then (true, r.2)
      else dmaLoop env physoffset physsize rest r.2

/-- `HostAhciPort::receive(MessageDisk&)`: the consumer-facing entry.
`none` models the panic on an unknown message type.  DISK_GET_PARAMS
fills the caller's structure from `_params` (outside the port state)
and changes nothing here. -/
def receive (env : HostEnv) (st : PortState) (msg : MessageDisk) : Option (Bool × PortState) :=
  if msg.disknr ≠ st.disknr then some (false, st)
  else
    match msg.type with
    | DiskOp.read | DiskOp.write =>
      let length := sum_length msg.dma
      if length &&& 0x1ff ≠ 0 then some (false, st)
      else
        let command := if msg.type = DiskOp.write then (if st.lba48 then 0x35 else 0xca)
            else (if st.lba48 then 0x25 else 0xc8)
        let st1 := set_command env st command msg.sector (msg.type ≠ DiskOp.write)
            (length >>> 9) false 0 0
        let r := dmaLoop env msg.physoffset msg.physsize msg.dma st1
        if r.1 then some (false, r.2)
        else some (true, (start_command r.2 msg.usertag).2)
    | DiskOp.flush_cache =>
      let st1 := set_command env st (if st.lba48 then 0xea else 0xe7) 0 true 0 false 0 0
      some (true, (start_command st1 0).2)
    | DiskOp.get_params => some (true, st)
    | DiskOp.other => none

/-- The `HostAhciPort` constructor: only `_tag` is initialised (to 0);
`_inprogress`, `_usertags` and the freshly allocated DMA buffer
contents are left uninitialised and appear here as the unconstrained
`g*` parameters.  `_params` is the default `HostGenericAta` (its
parsed LBA48 flag is the external helper's default, `gLba48`). -/
def mkPort (disknr max_slots : Nat) (dmar : Bool) (cl_base ct_base fis_base : Nat)
    (gCl gCt gUsertags : List Nat) (gInprogress : Nat) (gLba48 : Bool) : PortState :=
  { disknr := disknr, max_slots := max_slots, dmar := dmar,
    cl_base := cl_base, ct_base := ct_base, fis_base := fis_base,
    cl := gCl, ct := gCt, tag := 0, lba48 := gLba48,
    usertags := gUsertags, inprogress := gInprogress,
    mmio := [], waits := [] }

/-- Slot count computed by `HostAhci::create_ahci_port`:
`((_regs->cap >> 8) & 0x1f) + 1`. -/
def slotsOfCap (cap : Nat) : Nat := ((cap >>> 8) &&& 0x1f) + 1

/-- The high-ports mapping of the `HostAhci` constructor: when
`_regs->pi >> 30` is nonzero, request an iomem mapping of 0x1000 bytes
at `bar + 0x1000` (`allocIomem` is the host's `OP_ALLOC_IOMEM`
returning the mapped pointer) and offset the returned pointer by
`bar & 0xfe0`.  Returns (requested physical address, requested size,
`_regs_high`), or `none` when the high ports are absent. -/
def hba_high_ports (pi bar : Nat) (allocIomem : Nat → Nat → Nat) : Option (Nat × Nat × Nat) :=
  if pi >>> 30 ≠ 0 then
    some (bar + 0x1000, 0x1000, allocIomem (bar + 0x1000) 0x1000 + (bar &&& 0xfe0))
  else none

/-- Well-formed port state: slot count in range, round-robin cursor in
range, DMA arrays of the allocated sizes (`max_slots*CL_DWORDS` and
`max_slots*(128+MAX_PRD_COUNT*16)/4` dwords, 32 user tags) and all
stored dwords 32-bit. -/
def WF (st : PortState) : Prop :=
  1 ≤ st.max_slots ∧ st.max_slots ≤ 32 ∧ st.tag < st.max_slots ∧
  st.cl.length = st.max_slots * CL_DWORDS ∧
  st.ct.length = st.max_slots * (128 + MAX_PRD_COUNT * 16) / 4 ∧
  st.usertags.length = 32 ∧ st.inprogress < U32 ∧
  (∀ x ∈ st.cl, x < U32) ∧ (∀ x ∈ st.ct, x < U32)

instance (st : PortState) : Decidable (WF st) := by
  unfold WF; infer_instance

/-- Number of set bits (for the spec's `popcount`). -/
def popCount (n : Nat) : Nat :=
  if h : n = 0 then 0
  else popCount (n / 2) + n % 2
decreasing_by exact Nat.div_lt_self (Nat.pos_of_ne_zero h) Nat.one_lt_two

/-- The internal slot invariant: the round-robin cursor is a valid slot
and `_inprogress` only has bits below `max_slots`. -/
def InvP (st : PortState) : Prop :=
  st.tag < st.max_slots ∧ st.inprogress < 2 ^ st.max_slots

instance (st : PortState) : Decidable (InvP st) := by
  unfold InvP; infer_instance

/-- The invariant exactly as the claim states it:
`popcount(in_progress) ≤ max_slots` and
`in_progress & ~((1 << max_slots) - 1) == 0`. -/
def claimInv (st : PortState) : Prop :=
  popCount st.inprogress ≤ st.max_slots ∧
  st.inprogress &&& not32 ((1 <<< st.max_slots) - 1) = 0

instance (st : PortState) : Decidable (claimInv st) := by
  unfold claimInv; infer_instance

/-- Ascending list of the set bits of a 32-bit value: the order in
which the `irq` completion loop visits completed slots. -/
def bitIndices (n : Nat) : List Nat := (List.range 32).filter n.testBit

/-- The polling loop of `HostAhciPort::wait_timeout`.  Register and
clock reads are streams indexed by read count: loop iteration `i` reads
`reg i` and then `clk (i+1)` (read 0 of the clock computed the
deadline).  Returns the exit iteration; `fuel` bounds the recursion and
is irrelevant once the clock is strictly monotone and
`TIMEOUT ≤ fuel`. -/
def waitExit (reg clk : Nat → Nat) (mask value timeout : Nat) : Nat → Nat → Nat
  | 0, i => i
  | fuel + 1, i =>
    if reg i &&& mask ≠ value ∧ clk (i + 1) < timeout then
      waitExit reg clk mask value timeout fuel (i + 1)
    else i

/-- `HostAhciPort::wait_timeout`: poll until `(*reg & mask) == value`
or `TIMEOUT` milliseconds (monotonic clock at `FREQ` = 1 kHz) have
elapsed; the returned value is the C expression
`(*reg & mask) != value` evaluated on one final register read. -/
def wait_timeout (reg clk : Nat → Nat) (mask value fuel : Nat) : Nat :=
  let timeout := clk 0 + TIMEOUT
  let e := waitExit reg clk mask value timeout fuel 0
  if reg (e + 1) &&& mask ≠ value then 1 else 0

/-! ### List access helpers -/

theorem getD_set_self : ∀ (l : List Nat) (i v : Nat), i < l.length → (l.set i v).getD i 0 = v
  | [], _, _, h => absurd h (by simp)
  | _ :: _, 0, _, _ => rfl
  | _ :: l, i + 1, v, h => getD_set_self l i v (Nat.lt_of_succ_lt_succ (by simpa using h))

theorem getD_set_ne : ∀ (l : List Nat) (i j v : Nat), i ≠ j → (l.set i v).getD j 0 = l.getD j 0
  | [], _, _, _, _ => rfl
  | _ :: _, 0, 0, _, h => absurd rfl h
  | _ :: _, 0, _ + 1, _, _ => rfl
  | _ :: _, _ + 1, 0, _, _ => rfl
  | _ :: l, i + 1, j + 1, v, h => getD_set_ne l i j v (fun he => h (by rw [he]))

theorem getD_bound : ∀ (l : List Nat), (∀ x ∈ l, x < U32) → ∀ j, l.getD j 0 < U32
  | [], _, _ => by unfold U32; simp [List.getD]
  | a :: l, h, 0 => h a (List.mem_cons_self a l)
  | _ :: l, h, j + 1 => getD_bound l (fun x hx => h x (List.mem_cons_of_mem _ hx)) j

theorem mem_set_bound {l : List Nat} {i v : Nat} (hl : ∀ x ∈ l, x < U32) (hv : v < U32) :
    ∀ x ∈ l.set i v, x < U32 := by
  intro x hx
  rcases List.mem_or_eq_of_mem_set hx with h | h
  · exact hl x h
  · exact h ▸ hv

theorem U32_eq : U32 = 4294967296 := by norm_num [U32]

/-! ### Claim theorems -/

/-- C3, counterexample: with PI bit 30 set and ABAR = 0x20 (a valid
32-bit memory BAR), the code computes `_regs_high` as the mapping
offset by `0x20 & 0xfe0 = 0x20`, while the claim's offset
`ABAR & 0x1f` is 0. -/
theorem c3_offset_cex :
    hba_high_ports (1 <<< 30) 0x20 (fun a _ => a) = some (0x1020, 0x1000, 0x1040) ∧
    0x1040 ≠ 0x1020 + (0x20 &&& 0x1f) := by
  constructor
  · rfl
  · decide

/-- C3 (amended): during HBA attach, if any of PI bits 30–31 are set
(equivalently `PI >> 30` is nonzero), a further 0x1000 bytes are mapped
at ABAR+0x1000 and the high-ports register pointer is that mapping
offset by bits 5–11 of ABAR (`ABAR & 0xFE0`), not by its low 5 bits;
no high-ports mapping is requested otherwise. -/
theorem c3_high_ports (pi bar : Nat) (alloc : Nat → Nat → Nat) (hpi : pi < U32) :
    ((pi.testBit 30 ∨ pi.testBit 31) ↔ pi >>> 30 ≠ 0) ∧
    (pi >>> 30 ≠ 0 →
      hba_high_ports pi bar alloc =
        some (bar + 0x1000, 0x1000, alloc (bar + 0x1000) 0x1000 + (bar &&& 0xfe0))) ∧
    (pi >>> 30 = 0 → hba_high_ports pi bar alloc = none) := by
  refine ⟨?_, ?_, ?_⟩
  · have h31 : pi >>> 31 = pi >>> 30 / 2 := by
      rw [Nat.shiftRight_eq_div_pow, Nat.shiftRight_eq_div_pow]
      rw [show (2 : Nat) ^ 31 = 2 ^ 30 * 2 by norm_num]
      rw [Nat.div_div_eq_div_mul]
    have hlt : pi >>> 30 < 4 := by
      rw [Nat.shiftRight_eq_div_pow]
      have : pi < 2 ^ 30 * 4 := by
        calc pi < U32 := hpi
        _ = 2 ^ 30 * 4 := by norm_num [U32]
      omega
    simp only [Nat.testBit_to_div_mod, ← Nat.shiftRight_eq_div_pow, h31, decide_eq_true_eq]
    omega
  · intro h; simp [hba_high_ports, h]
  · intro h; simp [hba_high_ports, h]

/-- C6: a READ or WRITE whose scatter/gather lengths sum to a
non-multiple of 512 makes `receive` return false with the state
literally unchanged — no register write, no change to `_inprogress`,
`_tag` or `_usertags`; the code's `length & 0x1ff` test is exactly the
mod-512 test. -/
theorem c6_unaligned (env : HostEnv) (st : PortState) (msg : MessageDisk)
    (htype : msg.type = DiskOp.read ∨ msg.type = DiskOp.write)
    (hlen : sum_length msg.dma % 512 ≠ 0) :
    receive env st msg = some (false, st) ∧
    sum_length msg.dma &&& 0x1ff = sum_length msg.dma % 512 := by
  have hand : sum_length msg.dma &&& 0x1ff = sum_length msg.dma % 512 := by
    have := Nat.and_pow_two_sub_one_eq_mod (sum_length msg.dma) 9
    norm_num at this
    exact this
  refine ⟨?_, hand⟩
  unfold receive
  by_cases hd : msg.disknr ≠ st.disknr
  · simp [hd]
  · rcases htype with ht | ht <;>
      simp [hd, ht, hand, hlen]

theorem shiftRight22_ne (count : Nat) : count >>> 22 ≠ 0 ↔ 2 ^ 22 ≤ count := by
  rw [Nat.shiftRight_eq_div_pow]
  have h22 : (2 : Nat) ^ 22 = 4194304 := by norm_num
  rw [h22]
  omega

/-- C5: `add_dma` (and `add_prd`, which asserts) reject an odd or
≥ 2^22 byte count and a full PRD table (PRD count = MAX_PRD_COUNT = 64)
leaving the state unchanged; on success both increment the PRD-count
field (bits 16–31 of Command Header dword 0) by one, write the buffer's
address dwords, and write the fourth PRD dword as the 32-bit value
`byte_count - 1`. -/
theorem c5_add_dma_prd (env : HostEnv) (st : PortState) (ptr count : Nat) (hwf : WF st) :
    ((count % 2 = 1 ∨ 2 ^ 22 ≤ count) →
      add_dma env st ptr count = (true, st) ∧ add_prd env st ptr count = none) ∧
    (count % 2 = 0 → count < 2 ^ 22 →
      st.cl.getD (st.tag * CL_DWORDS) 0 >>> 16 = MAX_PRD_COUNT →
      add_dma env st ptr count = (true, st) ∧ add_prd env st ptr count = some (true, st)) ∧
    (count % 2 = 0 → count < 2 ^ 22 →
      st.cl.getD (st.tag * CL_DWORDS) 0 >>> 16 < MAX_PRD_COUNT →
      ∃ st2,
        add_dma env st ptr count = (false, st2) ∧
        add_prd env st ptr count = some (false, st2) ∧
        st2.cl.getD (st.tag * CL_DWORDS) 0 >>> 16 =
          st.cl.getD (st.tag * CL_DWORDS) 0 >>> 16 + 1 ∧
        st2.ct.getD (prdIndex st.tag (st.cl.getD (st.tag * CL_DWORDS) 0 >>> 16)) 0 =
          addr2phys env st.dmar ptr ∧
        st2.ct.getD (prdIndex st.tag (st.cl.getD (st.tag * CL_DWORDS) 0 >>> 16) + 1) 0 = 0 ∧
        st2.ct.getD (prdIndex st.tag (st.cl.getD (st.tag * CL_DWORDS) 0 >>> 16) + 3) 0 =
          sub1_32 count ∧
        (0 < count → sub1_32 count = count - 1)) := by
  obtain ⟨hms1, hms32, htag, hcll, hctl, hutl, hip, hclb, hctb⟩ := hwf
  have h22 : (2 : Nat) ^ 22 = 4194304 := by norm_num
  refine ⟨?_, ?_, ?_⟩
  · intro hc
    have hcond : count % 2 = 1 ∨ count >>> 22 ≠ 0 := by
      rcases hc with h | h
      · exact Or.inl h
      · exact Or.inr ((shiftRight22_ne count).mpr h)
    constructor
    · simp only [add_dma]; rw [if_pos hcond]
    · simp only [add_prd]
      rcases Nat.mod_two_eq_zero_or_one count with he | ho
      · rw [if_neg (by omega)]
        rw [if_pos ((shiftRight22_ne count).mpr (by rcases hc with h | h; omega; exact h))]
      · rw [if_pos ho]
  · intro hc2 hc22 hfull
    have hsr : ¬count >>> 22 ≠ 0 := by
      rw [shiftRight22_ne]; omega
    constructor
    · simp only [add_dma]
      rw [if_neg (by omega : ¬(count % 2 = 1 ∨ count >>> 22 ≠ 0))]
      rw [if_pos (le_of_eq hfull.symm)]
    · simp only [add_prd]
      rw [if_neg (by omega : ¬count % 2 = 1), if_neg hsr,
        if_pos (le_of_eq hfull.symm)]
  · intro hc2 hc22 hprd
    have hsr : ¬count >>> 22 ≠ 0 := by
      rw [shiftRight22_ne]; omega
    have hD : st.cl.getD (st.tag * CL_DWORDS) 0 < U32 := getD_bound st.cl hclb _
    set D := st.cl.getD (st.tag * CL_DWORDS) 0 with hDdef
    have hdiv : D >>> 16 = D / 65536 := by
      rw [Nat.shiftRight_eq_div_pow]
    simp only [MAX_PRD_COUNT] at hprd
    have hDlt : D < 64 * 65536 := by
      rw [hdiv] at hprd; omega
    have hclIdx : st.tag * CL_DWORDS < st.cl.length := by
      simp only [CL_DWORDS] at *
      rw [hcll]; omega
    have hmod : (D + 1 <<< 16) % U32 = D + 65536 := by
      rw [U32_eq]
      have : (1 : Nat) <<< 16 = 65536 := by norm_num [Nat.shiftLeft_eq]
      omega
    refine ⟨{ st with
        cl := st.cl.set (st.tag * CL_DWORDS) ((D + 1 <<< 16) % U32),
        ct := ((st.ct.set (prdIndex st.tag (D >>> 16)) (addr2phys env st.dmar ptr)).set
            (prdIndex st.tag (D >>> 16) + 1) 0).set
            (prdIndex st.tag (D >>> 16) + 3) (sub1_32 count) },
      ?_, ?_, ?_, ?_, ?_, ?_, ?_⟩
    · simp only [add_dma]
      rw [if_neg (by omega : ¬(count % 2 = 1 ∨ count >>> 22 ≠ 0))]
      rw [if_neg (by simp only [MAX_PRD_COUNT]; omega)]
    · simp only [add_prd]
      rw [if_neg (by omega : ¬count % 2 = 1), if_neg hsr,
        if_neg (by simp only [MAX_PRD_COUNT]; omega)]
    · simp only
      rw [getD_set_self _ _ _ hclIdx, hmod, hdiv, Nat.shiftRight_eq_div_pow]
      norm_num
    · have hlen3 : prdIndex st.tag (D >>> 16) + 3 < st.ct.length := by
        simp only [prdIndex, MAX_PRD_COUNT] at *
        rw [hctl]
        rw [hdiv]
        omega
      simp only
      rw [getD_set_ne _ _ _ _ (by omega), getD_set_ne _ _ _ _ (by omega),
        getD_set_self _ _ _ (by omega)]
    · simp only
      rw [getD_set_ne _ _ _ _ (by omega)]
      have hlen1 : prdIndex st.tag (D >>> 16) + 1 < st.ct.length := by
        simp only [prdIndex, MAX_PRD_COUNT] at *
        rw [hctl, hdiv]
        omega
      rw [getD_set_self _ _ _ (by simpa using hlen1)]
    · simp only
      have hlen3 : prdIndex st.tag (D >>> 16) + 3 < st.ct.length := by
        simp only [prdIndex, MAX_PRD_COUNT] at *
        rw [hctl, hdiv]
        omega
      rw [getD_set_self _ _ _ (by simpa using hlen3)]
    · intro hpos
      rw [sub1_32, U32_eq]
      omega

/-! ### Structural lemmas about the port operations -/

/-- Equality of all state components except the DMA arrays `cl`/`ct`. -/
def eqMeta (s t : PortState) : Prop :=
  s.disknr = t.disknr ∧ s.max_slots = t.max_slots ∧ s.dmar = t.dmar ∧
  s.cl_base = t.cl_base ∧ s.ct_base = t.ct_base ∧ s.fis_base = t.fis_base ∧
  s.tag = t.tag ∧ s.lba48 = t.lba48 ∧ s.usertags = t.usertags ∧
  s.inprogress = t.inprogress ∧ s.mmio = t.mmio ∧ s.waits = t.waits

theorem eqMeta_refl (s : PortState) : eqMeta s s := by
  simp [eqMeta]

theorem eqMeta_trans {a b c : PortState} (h1 : eqMeta a b) (h2 : eqMeta b c) : eqMeta a c := by
  unfold eqMeta at *
  obtain ⟨a1, a2, a3, a4, a5, a6, a7, a8, a9, a10, a11, a12⟩ := h1
  obtain ⟨b1, b2, b3, b4, b5, b6, b7, b8, b9, b10, b11, b12⟩ := h2
  exact ⟨a1.trans b1, a2.trans b2, a3.trans b3, a4.trans b4, a5.trans b5, a6.trans b6,
    a7.trans b7, a8.trans b8, a9.trans b9, a10.trans b10, a11.trans b11, a12.trans b12⟩

theorem set_command_eqMeta (env : HostEnv) (st : PortState) (c s : Nat) (r : Bool)
    (cnt : Nat) (a : Bool) (p f : Nat) : eqMeta (set_command env st c s r cnt a p f) st := by
  simp [set_command, eqMeta]

theorem add_dma_eqMeta (env : HostEnv) (st : PortState) (ptr count : Nat) :
    eqMeta (add_dma env st ptr count).2 st := by
  simp only [add_dma]
  split_ifs <;> simp [eqMeta]

theorem dmaLoop_eqMeta (env : HostEnv) (po ps : Nat) :
    ∀ (l : List DmaDesc) (st : PortState), eqMeta (dmaLoop env po ps l st).2 st
  | [], st => eqMeta_refl st
  | d :: rest, st => by
    simp only [dmaLoop]
    split_ifs with h1 h2
    · exact eqMeta_refl st
    · exact add_dma_eqMeta env st _ _
    · exact eqMeta_trans (dmaLoop_eqMeta env po ps rest _) (add_dma_eqMeta env st _ _)

theorem set_command_cl_length (env : HostEnv) (st : PortState) (c s : Nat) (r : Bool)
    (cnt : Nat) (a : Bool) (p f : Nat) :
    (set_command env st c s r cnt a p f).cl.length = st.cl.length := by
  simp [set_command]

theorem set_command_ct_length (env : HostEnv) (st : PortState) (c s : Nat) (r : Bool)
    (cnt : Nat) (a : Bool) (p f : Nat) :
    (set_command env st c s r cnt a p f).ct.length = st.ct.length := by
  simp [set_command]

theorem addr2phys_lt (env : HostEnv) (dmar : Bool) (ptr : Nat) : addr2phys env dmar ptr < U32 := by
  have : 0 < U32 := by rw [U32_eq]; omega
  unfold addr2phys
  split_ifs <;> exact Nat.mod_lt _ this

theorem sub1_32_lt (count : Nat) : sub1_32 count < U32 := by
  have : 0 < U32 := by rw [U32_eq]; omega
  exact Nat.mod_lt _ this

theorem set_command_WF (env : HostEnv) (st : PortState) (c s : Nat) (r : Bool)
    (cnt : Nat) (a : Bool) (p f : Nat) (hwf : WF st) :
    WF (set_command env st c s r cnt a p f) := by
  obtain ⟨hms1, hms32, htag, hcll, hctl, hutl, hip, hclb, hctb⟩ := hwf
  have hU : (65536 : Nat) * 65536 = U32 := by rw [U32_eq]
  have hd0 : ((if a then 0x20 else 0) ||| (if r then 0 else 0x40) ||| 5 |||
      ((p &&& 0xf) <<< 12)) < U32 := by
    rw [U32_eq, show (4294967296 : Nat) = 2 ^ 32 by norm_num]
    refine Nat.or_lt_two_pow (Nat.or_lt_two_pow (Nat.or_lt_two_pow ?_ ?_) ?_) ?_
    · split_ifs <;> norm_num
    · split_ifs <;> norm_num
    · norm_num
    · have : p &&& 0xf ≤ 0xf := Nat.and_le_right
      calc (p &&& 0xf) <<< 12 = (p &&& 0xf) * 4096 := by rw [Nat.shiftLeft_eq]
      _ ≤ 15 * 4096 := by omega
      _ < 2 ^ 32 := by norm_num
  have hbyte : ∀ x : Nat, byte x < 256 := fun x => Nat.mod_lt _ (by norm_num)
  have hor : (0x80 ||| (p &&& 0xf)) < 256 := by
    rw [show (256 : Nat) = 2 ^ 8 by norm_num]
    exact Nat.or_lt_two_pow (by norm_num)
      (lt_of_le_of_lt Nat.and_le_right (by norm_num))
  refine ⟨hms1, hms32, htag, ?_, ?_, hutl, hip, ?_, ?_⟩
  · rw [set_command_cl_length]; exact hcll
  · rw [set_command_ct_length]; exact hctl
  · simp only [set_command]
    refine mem_set_bound (mem_set_bound (mem_set_bound (mem_set_bound hclb hd0)
      (by rw [U32_eq]; omega)) (addr2phys_lt env st.dmar _)) (by rw [U32_eq]; omega)
  · simp only [set_command]
    have h0 := hbyte c
    have h1 := hbyte f
    have h2 := hbyte s
    have h3 := hbyte (s >>> 8)
    have h4 := hbyte (s >>> 16)
    have h5 := hbyte (s >>> 24)
    have h6 := hbyte (s >>> 32)
    have h7 := hbyte (s >>> 40)
    have h8 := hbyte (f >>> 8)
    have h9 := hbyte cnt
    have h10 := hbyte (cnt >>> 8)
    refine mem_set_bound (mem_set_bound (mem_set_bound (mem_set_bound (mem_set_bound hctb
      ?_) ?_) ?_) ?_) ?_ <;> rw [U32_eq] <;> omega

theorem add_dma_WF (env : HostEnv) (st : PortState) (ptr count : Nat) (hwf : WF st) :
    WF (add_dma env st ptr count).2 := by
  obtain ⟨hms1, hms32, htag, hcll, hctl, hutl, hip, hclb, hctb⟩ := hwf
  simp only [add_dma]
  split_ifs
  · exact ⟨hms1, hms32, htag, hcll, hctl, hutl, hip, hclb, hctb⟩
  · exact ⟨hms1, hms32, htag, hcll, hctl, hutl, hip, hclb, hctb⟩
  · refine ⟨hms1, hms32, htag, by simpa using hcll, by simpa using hctl, hutl, hip, ?_, ?_⟩
    · refine mem_set_bound hclb (Nat.mod_lt _ (by rw [U32_eq]; omega))
    · exact mem_set_bound (mem_set_bound (mem_set_bound hctb (addr2phys_lt env st.dmar _))
        (by rw [U32_eq]; omega)) (sub1_32_lt count)

theorem dmaLoop_WF (env : HostEnv) (po ps : Nat) :
    ∀ (l : List DmaDesc) (st : PortState), WF st → WF (dmaLoop env po ps l st).2
  | [], _, hwf => hwf
  | d :: rest, st, hwf => by
    simp only [dmaLoop]
    split_ifs with h1 h2
    · exact hwf
    · exact add_dma_WF env st _ _ hwf
    · exact dmaLoop_WF env po ps rest _ (add_dma_WF env st _ _ hwf)

theorem start_command_WF (st : PortState) (u : Nat) (hwf : WF st) :
    WF (start_command st u).2 := by
  obtain ⟨hms1, hms32, htag, hcll, hctl, hutl, hip, hclb, hctb⟩ := hwf
  refine ⟨hms1, hms32, Nat.mod_lt _ (by omega), hcll, hctl, ?_, ?_, hclb, hctb⟩
  · show (st.usertags.set st.tag u).length = 32
    rw [List.length_set]; exact hutl
  · show st.inprogress ||| (1 <<< st.tag) < U32
    have h2 : (1 <<< st.tag) < 2 ^ 32 := by
      rw [Nat.shiftLeft_eq, one_mul]
      exact Nat.pow_lt_pow_right (by norm_num) (by omega)
    exact Nat.or_lt_two_pow hip h2

/-- Command Header dword 0 as written by `set_command`. -/
theorem set_command_cl_d0 (env : HostEnv) (st : PortState) (c s : Nat) (r : Bool)
    (cnt : Nat) (a : Bool) (p f : Nat) (h : st.tag * CL_DWORDS < st.cl.length) :
    (set_command env st c s r cnt a p f).cl.getD (st.tag * CL_DWORDS) 0 =
      (if a then 0x20 else 0) ||| (if r then 0 else 0x40) ||| 5 ||| ((p &&& 0xf) <<< 12) := by
  simp only [set_command]
  rw [getD_set_ne _ _ _ _ (by omega), getD_set_ne _ _ _ _ (by omega),
    getD_set_ne _ _ _ _ (by omega), getD_set_self _ _ _ h]

/-- First dword of the command FIS as written by `set_command`
(FIS type 0x27, `0x80 | pmp`, the ATA command byte, features low). -/
theorem set_command_ct_d0 (env : HostEnv) (st : PortState) (c s : Nat) (r : Bool)
    (cnt : Nat) (a : Bool) (p f : Nat) (h : ctSlot st.tag < st.ct.length) :
    (set_command env st c s r cnt a p f).ct.getD (ctSlot st.tag) 0 =
      0x27 + (0x80 ||| (p &&& 0xf)) * 0x100 + byte c * 0x10000 + byte f * 0x1000000 := by
  simp only [set_command]
  rw [getD_set_ne _ _ _ _ (by omega), getD_set_ne _ _ _ _ (by omega),
    getD_set_ne _ _ _ _ (by omega), getD_set_ne _ _ _ _ (by omega), getD_set_self _ _ _ h]

/-- `add_dma` never touches the command-FIS dwords (its PRD writes land
at `ctSlot + 32` or above). -/
theorem add_dma_ct_d0 (env : HostEnv) (st : PortState) (ptr count : Nat) :
    ((add_dma env st ptr count).2).ct.getD (ctSlot st.tag) 0 = st.ct.getD (ctSlot st.tag) 0 := by
  simp only [add_dma]
  split_ifs
  · rfl
  · rfl
  · simp only
    rw [getD_set_ne _ _ _ _ (by simp only [prdIndex, ctSlot, MAX_PRD_COUNT]; omega),
      getD_set_ne _ _ _ _ (by simp only [prdIndex, ctSlot, MAX_PRD_COUNT]; omega),
      getD_set_ne _ _ _ _ (by simp only [prdIndex, ctSlot, MAX_PRD_COUNT]; omega)]

theorem dmaLoop_ct_d0 (env : HostEnv) (po ps : Nat) :
    ∀ (l : List DmaDesc) (st : PortState),
      ((dmaLoop env po ps l st).2).ct.getD (ctSlot st.tag) 0 = st.ct.getD (ctSlot st.tag) 0
  | [], _ => rfl
  | d :: rest, st => by
    simp only [dmaLoop]
    split_ifs with h1 h2
    · rfl
    · exact add_dma_ct_d0 env st _ _
    · have htg : ((add_dma env st ((po + d.byteoffset) % U32) d.bytecount).2).tag = st.tag :=
        (add_dma_eqMeta env st _ _).2.2.2.2.2.2.1
      rw [← htg, dmaLoop_ct_d0 env po ps rest _, htg, add_dma_ct_d0]

/-- The ATA command byte of slot `tag`'s command FIS: byte 2 of the
FIS, i.e. bits 16–23 of its first dword. -/
def fisCommandByte (st : PortState) (tag : Nat) : Nat :=
  st.ct.getD (ctSlot tag) 0 >>> 16 &&& 0xff

theorem fis_byte_of (x c f : Nat) (hx : x < 256) :
    (0x27 + x * 0x100 + byte c * 0x10000 + byte f * 0x1000000) >>> 16 &&& 0xff = byte c := by
  have h1 : byte c < 256 := Nat.mod_lt _ (by norm_num)
  have h2 : byte f < 256 := Nat.mod_lt _ (by norm_num)
  rw [Nat.shiftRight_eq_div_pow,
    show (0xff : Nat) = 2 ^ 8 - 1 by norm_num, Nat.and_pow_two_sub_one_eq_mod]
  norm_num
  omega

/-- `receive` on an aligned READ addressed to this disk: the chosen
command byte, `set_command`, the descriptor loop, and on success
`start_command` with the caller's tag. -/
theorem receive_read_eq (env : HostEnv) (st : PortState) (mtag msec : Nat)
    (mdma : List DmaDesc) (mpo mps : Nat) (hal : sum_length mdma &&& 0x1ff = 0) :
    receive env st ⟨DiskOp.read, st.disknr, mtag, msec, mdma, mpo, mps⟩ =
      (if (dmaLoop env mpo mps mdma (set_command env st (if st.lba48 then 0x25 else 0xc8)
            msec true (sum_length mdma >>> 9) false 0 0)).1 then
        some (false, (dmaLoop env mpo mps mdma (set_command env st
            (if st.lba48 then 0x25 else 0xc8) msec true
            (sum_length mdma >>> 9) false 0 0)).2)
      else
        some (true, (start_command (dmaLoop env mpo mps mdma (set_command env st
            (if st.lba48 then 0x25 else 0xc8) msec true
            (sum_length mdma >>> 9) false 0 0)).2 mtag).2)) := by
  simp [receive, hal]

/-- `receive` on an aligned WRITE addressed to this disk. -/
theorem receive_write_eq (env : HostEnv) (st : PortState) (mtag msec : Nat)
    (mdma : List DmaDesc) (mpo mps : Nat) (hal : sum_length mdma &&& 0x1ff = 0) :
    receive env st ⟨DiskOp.write, st.disknr, mtag, msec, mdma, mpo, mps⟩ =
      (if (dmaLoop env mpo mps mdma (set_command env st (if st.lba48 then 0x35 else 0xca)
            msec false (sum_length mdma >>> 9) false 0 0)).1 then
        some (false, (dmaLoop env mpo mps mdma (set_command env st
            (if st.lba48 then 0x35 else 0xca) msec false
            (sum_length mdma >>> 9) false 0 0)).2)
      else
        some (true, (start_command (dmaLoop env mpo mps mdma (set_command env st
            (if st.lba48 then 0x35 else 0xca) msec false
            (sum_length mdma >>> 9) false 0 0)).2 mtag).2)) := by
  simp [receive, hal]

/-- `receive` on a FLUSH_CACHE addressed to this disk: note the
internal tag passed to `start_command` is the constant 0, not the
caller's `usertag`. -/
theorem receive_flush_eq (env : HostEnv) (st : PortState) (mtag msec : Nat)
    (mdma : List DmaDesc) (mpo mps : Nat) :
    receive env st ⟨DiskOp.flush_cache, st.disknr, mtag, msec, mdma, mpo, mps⟩ =
      some (true, (start_command (set_command env st (if st.lba48 then 0xea else 0xe7)
        0 true 0 false 0 0) 0).2) := by
  simp [receive]

theorem fisCommandByte_set_command (env : HostEnv) (st : PortState) (c s : Nat) (rd : Bool)
    (cnt : Nat) (hct : ctSlot st.tag < st.ct.length) :
    fisCommandByte (set_command env st c s rd cnt false 0 0) st.tag = byte c := by
  unfold fisCommandByte
  rw [set_command_ct_d0 _ _ _ _ _ _ _ _ _ hct]
  exact fis_byte_of _ c 0 (by decide)

theorem fisCommandByte_after_loop (env : HostEnv) (st : PortState) (c s cnt mpo mps : Nat)
    (rd : Bool) (mdma : List DmaDesc) (hct : ctSlot st.tag < st.ct.length) :
    fisCommandByte ((dmaLoop env mpo mps mdma (set_command env st c s rd cnt false 0 0)).2)
      st.tag = byte c := by
  unfold fisCommandByte
  have e1 : (set_command env st c s rd cnt false 0 0).tag = st.tag := rfl
  have h := dmaLoop_ct_d0 env mpo mps mdma (set_command env st c s rd cnt false 0 0)
  rw [e1] at h
  rw [h, set_command_ct_d0 _ _ _ _ _ _ _ _ _ hct]
  exact fis_byte_of _ c 0 (by decide)

theorem ctSlot_lt (st : PortState) (hwf : WF st) : ctSlot st.tag < st.ct.length := by
  obtain ⟨hms1, hms32, htag, hcll, hctl, hutl, hip, hclb, hctb⟩ := hwf
  simp only [ctSlot, MAX_PRD_COUNT] at *
  rw [hctl]
  omega

theorem clIdx_lt (st : PortState) (hwf : WF st) : st.tag * CL_DWORDS < st.cl.length := by
  obtain ⟨hms1, hms32, htag, hcll, hctl, hutl, hip, hclb, hctb⟩ := hwf
  simp only [CL_DWORDS] at *
  rw [hcll]
  omega

/-- C4: for every READ reaching command construction (disknr match,
aligned length), the ATA command byte in the FIS is 0x25 when LBA48 and
0xC8 otherwise; for WRITE 0x35 / 0xCA; for FLUSH_CACHE 0xEA / 0xE7 and
the header's PRD-count field stays 0 (no PRD appended). -/
theorem c4_command_bytes (env : HostEnv) (st : PortState) (msg : MessageDisk)
    (hwf : WF st) (hdn : msg.disknr = st.disknr)
    (hal : sum_length msg.dma &&& 0x1ff = 0) :
    (msg.type = DiskOp.read →
      ∃ b st', receive env st msg = some (b, st') ∧
        fisCommandByte st' st.tag = if st.lba48 then 0x25 else 0xc8) ∧
    (msg.type = DiskOp.write →
      ∃ b st', receive env st msg = some (b, st') ∧
        fisCommandByte st' st.tag = if st.lba48 then 0x35 else 0xca) ∧
    (msg.type = DiskOp.flush_cache →
      ∃ st', receive env st msg = some (true, st') ∧
        fisCommandByte st' st.tag = (if st.lba48 then 0xea else 0xe7) ∧
        st'.cl.getD (st.tag * CL_DWORDS) 0 >>> 16 = 0) := by
  have hct : ctSlot st.tag < st.ct.length := ctSlot_lt st hwf
  have hcl : st.tag * CL_DWORDS < st.cl.length := clIdx_lt st hwf
  obtain ⟨mt, mdn, mtag, msec, mdma, mpo, mps⟩ := msg
  simp only at hdn hal ⊢
  subst hdn
  refine ⟨?_, ?_, ?_⟩
  · intro ht
    subst ht
    rw [receive_read_eq env st mtag msec mdma mpo mps hal]
    set r := dmaLoop env mpo mps mdma (set_command env st (if st.lba48 then 0x25 else 0xc8)
        msec true (sum_length mdma >>> 9) false 0 0) with hr
    have hfis : fisCommandByte r.2 st.tag = if st.lba48 then 0x25 else 0xc8 := by
      rw [hr, fisCommandByte_after_loop env st _ msec _ mpo mps true mdma hct]
      by_cases hl : st.lba48 <;> simp [hl, byte]
    cases hb : r.1
    · exact ⟨true, (start_command r.2 mtag).2, by simp [hb], hfis⟩
    · exact ⟨false, r.2, by simp [hb], hfis⟩
  · intro ht
    subst ht
    rw [receive_write_eq env st mtag msec mdma mpo mps hal]
    set r := dmaLoop env mpo mps mdma (set_command env st (if st.lba48 then 0x35 else 0xca)
        msec false (sum_length mdma >>> 9) false 0 0) with hr
    have hfis : fisCommandByte r.2 st.tag = if st.lba48 then 0x35 else 0xca := by
      rw [hr, fisCommandByte_after_loop env st _ msec _ mpo mps false mdma hct]
      by_cases hl : st.lba48 <;> simp [hl, byte]
    cases hb : r.1
    · exact ⟨true, (start_command r.2 mtag).2, by simp [hb], hfis⟩
    · exact ⟨false, r.2, by simp [hb], hfis⟩
  · intro ht
    subst ht
    rw [receive_flush_eq env st mtag msec mdma mpo mps]
    refine ⟨_, rfl, ?_, ?_⟩
    · have : fisCommandByte (start_command (set_command env st (if st.lba48 then 0xea else 0xe7)
          0 true 0 false 0 0) 0).2 st.tag =
          fisCommandByte (set_command env st (if st.lba48 then 0xea else 0xe7)
            0 true 0 false 0 0) st.tag := rfl
      rw [this, fisCommandByte_set_command env st _ 0 true 0 hct]
      by_cases hl : st.lba48 <;> simp [hl, byte]
    · have : (start_command (set_command env st (if st.lba48 then 0xea else 0xe7)
          0 true 0 false 0 0) 0).2.cl =
          (set_command env st (if st.lba48 then 0xea else 0xe7) 0 true 0 false 0 0).cl := rfl
      rw [this, set_command_cl_d0 _ _ _ _ _ _ _ _ _ hcl]
      decide

theorem add_dma_success (env : HostEnv) (st : PortState) (ptr count : Nat)
    (hc2 : count % 2 = 0) (hc22 : count < 2 ^ 22)
    (hprd : st.cl.getD (st.tag * CL_DWORDS) 0 >>> 16 < MAX_PRD_COUNT) :
    add_dma env st ptr count =
      (false, { st with
        cl := st.cl.set (st.tag * CL_DWORDS)
          ((st.cl.getD (st.tag * CL_DWORDS) 0 + (1 <<< 16)) % U32),
        ct := ((st.ct.set (prdIndex st.tag (st.cl.getD (st.tag * CL_DWORDS) 0 >>> 16))
            (addr2phys env st.dmar ptr)).set
            (prdIndex st.tag (st.cl.getD (st.tag * CL_DWORDS) 0 >>> 16) + 1) 0).set
            (prdIndex st.tag (st.cl.getD (st.tag * CL_DWORDS) 0 >>> 16) + 3)
            (sub1_32 count) }) := by
  have hsr : ¬count >>> 22 ≠ 0 := by rw [shiftRight22_ne]; omega
  simp only [add_dma]
  rw [if_neg (by omega : ¬(count % 2 = 1 ∨ count >>> 22 ≠ 0)),
    if_neg (by omega : ¬MAX_PRD_COUNT ≤ st.cl.getD (st.tag * CL_DWORDS) 0 >>> 16)]

/-- C10: a zero-byte scatter/gather descriptor is accepted by the
READ/WRITE path — it passes the bounds check (0 is within any region
when its offset is) and `add_dma`'s checks (0 is even and `0 >> 22` is
0), the PRD count is incremented, and the PRD's fourth dword is written
as `0 - 1` on `unsigned`, i.e. 0xFFFFFFFF = `U32 - 1`, rather than the
request failing as InvalidArgument. -/
theorem c10_zero_count (env : HostEnv) (st : PortState) (mtag msec mpo mps off : Nat)
    (hwf : WF st) (hoff : off ≤ mps) :
    (∃ st', receive env st ⟨DiskOp.read, st.disknr, mtag, msec, [⟨off, 0⟩], mpo, mps⟩ =
        some (true, st') ∧
      st'.cl.getD (st.tag * CL_DWORDS) 0 >>> 16 = 1 ∧
      st'.ct.getD (prdIndex st.tag 0 + 3) 0 = U32 - 1) ∧
    (∀ ptr, st.cl.getD (st.tag * CL_DWORDS) 0 >>> 16 < MAX_PRD_COUNT →
      ∃ st2, add_dma env st ptr 0 = (false, st2) ∧
        st2.cl.getD (st.tag * CL_DWORDS) 0 >>> 16 =
          st.cl.getD (st.tag * CL_DWORDS) 0 >>> 16 + 1 ∧
        st2.ct.getD (prdIndex st.tag (st.cl.getD (st.tag * CL_DWORDS) 0 >>> 16) + 3) 0 =
          U32 - 1) := by
  have hcl : st.tag * CL_DWORDS < st.cl.length := clIdx_lt st hwf
  have hsub : sub1_32 0 = U32 - 1 := by rw [sub1_32, U32_eq]
  obtain ⟨hms1, hms32, htag, hcll, hctl, hutl, hip, hclb, hctb⟩ := hwf
  constructor
  · have hal : sum_length [(⟨off, 0⟩ : DmaDesc)] &&& 0x1ff = 0 := by
      have : sum_length [(⟨off, 0⟩ : DmaDesc)] = 0 := by
        simp [sum_length]
      rw [this]
      decide
    rw [receive_read_eq env st mtag msec [⟨off, 0⟩] mpo mps hal]
    set st1 := set_command env st (if st.lba48 then 0x25 else 0xc8) msec true
        (sum_length [(⟨off, 0⟩ : DmaDesc)] >>> 9) false 0 0 with hst1
    have e1 : st1.tag = st.tag := rfl
    have e1l : st1.cl.length = st.cl.length := set_command_cl_length env st _ _ _ _ _ _ _
    have e1c : st1.ct.length = st.ct.length := set_command_ct_length env st _ _ _ _ _ _ _
    have hd0 : st1.cl.getD (st.tag * CL_DWORDS) 0 = 5 := by
      rw [hst1, set_command_cl_d0 env st _ _ _ _ _ _ _ hcl]
      decide
    have hprd1 : st1.cl.getD (st1.tag * CL_DWORDS) 0 >>> 16 < MAX_PRD_COUNT := by
      rw [e1, hd0]; decide
    have hloop : dmaLoop env mpo mps [⟨off, 0⟩] st1 =
        (false, (add_dma env st1 ((mpo + off) % U32) 0).2) := by
      simp only [dmaLoop]
      rw [if_neg (by
        push_neg
        refine ⟨hoff, ?_⟩
        calc (off + 0) % U32 ≤ off + 0 := Nat.mod_le _ _
        _ ≤ mps := by omega)]
      rw [add_dma_success env st1 _ 0 (by norm_num) (by norm_num) hprd1]
      simp [dmaLoop]
    rw [hloop]
    simp only
    set st2 := (add_dma env st1 ((mpo + off) % U32) 0).2 with hst2
    refine ⟨(start_command st2 mtag).2, rfl, ?_, ?_⟩
    · have e2 : (start_command st2 mtag).2.cl = st2.cl := rfl
      rw [e2, hst2, add_dma_success env st1 _ 0 (by norm_num) (by norm_num) hprd1]
      simp only [e1]
      rw [getD_set_self _ _ _ (by rw [e1l]; exact hcl), hd0]
      decide
    · have e2 : (start_command st2 mtag).2.ct = st2.ct := rfl
      rw [e2, hst2, add_dma_success env st1 _ 0 (by norm_num) (by norm_num) hprd1]
      simp only [e1, hd0]
      rw [show (5 : Nat) >>> 16 = 0 by decide]
      rw [getD_set_self _ _ _ ?_]
      · exact hsub
      · simp only [List.length_set]
        rw [e1c]
        simp only [prdIndex, MAX_PRD_COUNT] at *
        rw [hctl]
        omega
  · intro ptr hprd
    refine ⟨_, add_dma_success env st ptr 0 (by norm_num) (by norm_num) hprd, ?_, ?_⟩
    · simp only
      rw [getD_set_self _ _ _ hcl]
      have hD : st.cl.getD (st.tag * CL_DWORDS) 0 < U32 := getD_bound st.cl hclb _
      have h16 : (1 : Nat) <<< 16 = 65536 := by decide
      have hdiv : ∀ x : Nat, x >>> 16 = x / 65536 := fun x => by
        rw [Nat.shiftRight_eq_div_pow]
      rw [h16, hdiv, hdiv]
      rw [U32_eq] at hD ⊢
      have hDlt : st.cl.getD (st.tag * CL_DWORDS) 0 / 65536 < 64 := by
        have := hprd
        rw [hdiv] at this
        simpa [MAX_PRD_COUNT] using this
      omega
    · simp only
      rw [getD_set_self _ _ _ ?_]
      · exact hsub
      · simp only [List.length_set]
        simp only [prdIndex, MAX_PRD_COUNT] at *
        rw [hctl]
        have hp := hprd
        omega

theorem waitExit_timeout (reg clk : Nat → Nat) (mask value T r : Nat)
    (hr : ∀ i, reg i = r) (hp : r &&& mask ≠ value) (hclk : ∀ i, clk i < clk (i + 1)) :
    ∀ (f i : Nat), T ≤ clk (i + 1) + f →
      T ≤ clk (waitExit reg clk mask value T f i + 1)
  | 0, i, h => by simpa using h
  | f + 1, i, h => by
    simp only [waitExit]
    by_cases hc : clk (i + 1) < T
    · rw [if_pos ⟨by rw [hr]; exact hp, hc⟩]
      exact waitExit_timeout reg clk mask value T r hr hp hclk f (i + 1)
        (by have := hclk (i + 1); omega)
    · rw [if_neg (by intro hh; exact hc hh.2)]
      omega

/-- C8: `wait_timeout` polls until `(*reg & mask) == value` or 200 ms
of the 1 kHz monotonic clock have elapsed; with a stable register it
returns zero exactly when the predicate is satisfied (exiting the loop
at once) and nonzero exactly on timeout (the clock at the exit read has
passed the deadline `clk 0 + TIMEOUT`). -/
theorem c8_wait_timeout (reg clk : Nat → Nat) (mask value fuel r : Nat)
    (hr : ∀ i, reg i = r) (hclk : ∀ i, clk i < clk (i + 1)) (hfuel : TIMEOUT ≤ fuel) :
    (wait_timeout reg clk mask value fuel = 0 ↔ r &&& mask = value) ∧
    (wait_timeout reg clk mask value fuel = 1 ↔ r &&& mask ≠ value) ∧
    (r &&& mask = value → waitExit reg clk mask value (clk 0 + TIMEOUT) fuel 0 = 0) ∧
    (r &&& mask ≠ value →
      clk 0 + TIMEOUT ≤ clk (waitExit reg clk mask value (clk 0 + TIMEOUT) fuel 0 + 1)) := by
  have hT : (200 : Nat) ≤ fuel := by simpa [TIMEOUT] using hfuel
  by_cases hp : r &&& mask = value
  · obtain ⟨f, rfl⟩ : ∃ f, fuel = f + 1 := ⟨fuel - 1, by omega⟩
    have hE : waitExit reg clk mask value (clk 0 + TIMEOUT) (f + 1) 0 = 0 := by
      simp only [waitExit]
      rw [if_neg (by intro hh; exact hh.1 (by rw [hr 0]; exact hp))]
    have hwt : wait_timeout reg clk mask value (f + 1) = 0 := by
      simp only [wait_timeout]
      rw [hE, hr 1]
      simp [hp]
    refine ⟨⟨fun _ => hp, fun _ => hwt⟩, ?_, fun _ => hE, fun h => absurd hp h⟩
    constructor
    · intro h1; rw [hwt] at h1; omega
    · intro h1; exact absurd hp h1
  · have hTO : clk 0 + TIMEOUT ≤
        clk (waitExit reg clk mask value (clk 0 + TIMEOUT) fuel 0 + 1) :=
      waitExit_timeout reg clk mask value (clk 0 + TIMEOUT) r hr hp hclk fuel 0
        (by have := hclk 0; simp only [TIMEOUT] at *; omega)
    have hwt : wait_timeout reg clk mask value fuel = 1 := by
      simp only [wait_timeout]
      rw [hr]
      simp [hp]
    refine ⟨?_, ⟨fun _ => hp, fun _ => hwt⟩, fun h => absurd h hp, fun _ => hTO⟩
    constructor
    · intro h1; rw [hwt] at h1; omega
    · intro h1; exact absurd h1 hp

/-- The conditions under which a descriptor `d`, arriving when the
slot's PRD count is `p`, is rejected by the `receive` descriptor loop:
out of the caller's region `[0, physsize)`, odd or oversized byte
count, or PRD table already full. -/
def descFails (mps : Nat) (d : DmaDesc) (p : Nat) : Prop :=
  mps < d.byteoffset ∨ mps < (d.byteoffset + d.bytecount) % U32 ∨
  d.bytecount % 2 = 1 ∨ 2 ^ 22 ≤ d.bytecount ∨ MAX_PRD_COUNT ≤ p

instance (mps : Nat) (d : DmaDesc) (p : Nat) : Decidable (descFails mps d p) := by
  unfold descFails; infer_instance

theorem dmaLoop_fail (env : HostEnv) (mpo mps : Nat) :
    ∀ (l : List DmaDesc) (i : Nat) (st : PortState) (D : Nat),
      WF st →
      st.cl.getD (st.tag * CL_DWORDS) 0 = D →
      i < l.length →
      descFails mps (l.getD i ⟨0, 0⟩) (D >>> 16 + i) →
      (∀ j, j < i → ¬descFails mps (l.getD j ⟨0, 0⟩) (D >>> 16 + j)) →
      (dmaLoop env mpo mps l st).1 = true ∧
      ((dmaLoop env mpo mps l st).2).cl.getD (st.tag * CL_DWORDS) 0 = D + i * 65536
  | [], i, st, D, _, _, hi, _, _ => absurd hi (by simp)
  | d :: rest, 0, st, D, hwf, hD, hi, hfail, hmin => by
    simp only [List.getD_cons_zero, Nat.add_zero] at hfail
    simp only [dmaLoop]
    by_cases hb : mps < d.byteoffset ∨ mps < (d.byteoffset + d.bytecount) % U32
    · rw [if_pos hb]
      refine ⟨rfl, ?_⟩
      show st.cl.getD (st.tag * CL_DWORDS) 0 = D + 0 * 65536
      simpa using hD
    · rw [if_neg hb]
      have hd : add_dma env st ((mpo + d.byteoffset) % U32) d.bytecount = (true, st) := by
        simp only [add_dma]
        split_ifs with h1 h2
        · rfl
        · rfl
        · exfalso
          rcases hfail with h | h | h | h | h
          · exact hb (Or.inl h)
          · exact hb (Or.inr h)
          · exact h1 (Or.inl h)
          · exact h1 (Or.inr ((shiftRight22_ne d.bytecount).mpr h))
          · rw [hD] at h2
            exact h2 h
      rw [hd]
      refine ⟨rfl, ?_⟩
      show st.cl.getD (st.tag * CL_DWORDS) 0 = D + 0 * 65536
      simpa using hD
  | d :: rest, i + 1, st, D, hwf, hD, hi, hfail, hmin => by
    have hok : ¬descFails mps d (D >>> 16) := by
      have := hmin 0 (Nat.succ_pos i)
      simpa using this
    unfold descFails at hok
    push_neg at hok
    obtain ⟨hb1, hb2, hodd, hbig, hp64⟩ := hok
    have hcl : st.tag * CL_DWORDS < st.cl.length := clIdx_lt st hwf
    have hD32 : D < U32 := hD ▸ getD_bound st.cl hwf.2.2.2.2.2.2.2.1 _
    have hp64' : D >>> 16 < 64 := by simpa [MAX_PRD_COUNT] using hp64
    have hdiv : D >>> 16 = D / 65536 := by rw [Nat.shiftRight_eq_div_pow]
    simp only [dmaLoop]
    rw [if_neg (by push_neg; exact ⟨hb1, hb2⟩)]
    have hd := add_dma_success env st ((mpo + d.byteoffset) % U32) d.bytecount
      (by omega) (by omega) (by rw [hD]; simpa [MAX_PRD_COUNT] using hp64')
    rw [hd]
    rw [if_neg (by simp)]
    have hwfX := add_dma_WF env st ((mpo + d.byteoffset) % U32) d.bytecount hwf
    rw [hd] at hwfX
    have hDX : ((add_dma env st ((mpo + d.byteoffset) % U32) d.bytecount).2).cl.getD
        (st.tag * CL_DWORDS) 0 = D + 65536 := by
      rw [hd]
      show (st.cl.set (st.tag * CL_DWORDS)
        ((st.cl.getD (st.tag * CL_DWORDS) 0 + (1 <<< 16)) % U32)).getD (st.tag * CL_DWORDS) 0
        = D + 65536
      rw [getD_set_self _ _ _ hcl, hD]
      have h16 : (1 : Nat) <<< 16 = 65536 := by decide
      rw [h16, U32_eq]
      rw [U32_eq] at hD32
      have hplt : D / 65536 < 64 := by rw [hdiv] at hp64'; exact hp64'
      omega
    rw [hd] at hDX
    have hdiv2 : (D + 65536) >>> 16 = D >>> 16 + 1 := by
      rw [Nat.shiftRight_eq_div_pow, hdiv]
      norm_num
    have IH := dmaLoop_fail env mpo mps rest i _ (D + 65536) hwfX hDX
      (by simpa using hi)
      (by
        rw [hdiv2]
        have h2 : rest.getD i ⟨0, 0⟩ = (d :: rest).getD (i + 1) ⟨0, 0⟩ := rfl
        rw [h2, (by omega : D >>> 16 + 1 + i = D >>> 16 + (i + 1))]
        exact hfail)
      (by
        intro j hj
        rw [hdiv2]
        have h1 : rest.getD j ⟨0, 0⟩ = (d :: rest).getD (j + 1) ⟨0, 0⟩ := rfl
        rw [h1, (by omega : D >>> 16 + 1 + j = D >>> 16 + (j + 1))]
        exact hmin (j + 1) (by omega))
    refine ⟨IH.1, ?_⟩
    exact IH.2.trans (by omega)

/-- C9: once the length check passes, a READ/WRITE overwrites the
current slot's Command Header and FIS via `set_command` before any
descriptor is validated; if descriptor `i` is the first to fail,
`receive` returns false with the header carrying the PRD count of the
`i` descriptors already packed and the freshly written FIS, while
`_inprogress`, `_tag` (next_tag), `_usertags` and the MMIO log (no CI
write) are unchanged. -/
theorem c9_partial_failure (env : HostEnv) (st : PortState) (msg : MessageDisk) (i : Nat)
    (hwf : WF st) (hdn : msg.disknr = st.disknr)
    (ht : msg.type = DiskOp.read ∨ msg.type = DiskOp.write)
    (hal : sum_length msg.dma &&& 0x1ff = 0)
    (hi : i < msg.dma.length)
    (hfail : descFails msg.physsize (msg.dma.getD i ⟨0, 0⟩) i)
    (hmin : ∀ j, j < i → ¬descFails msg.physsize (msg.dma.getD j ⟨0, 0⟩) j) :
    ∃ st', receive env st msg = some (false, st') ∧
      st'.inprogress = st.inprogress ∧ st'.tag = st.tag ∧
      st'.usertags = st.usertags ∧ st'.mmio = st.mmio ∧
      st'.cl.getD (st.tag * CL_DWORDS) 0 =
        (if msg.type = DiskOp.write then 0x45 else 5) + i * 65536 ∧
      st'.ct.getD (ctSlot st.tag) 0 =
        0x27 + 0x80 * 0x100 +
          (if msg.type = DiskOp.write then (if st.lba48 then 0x35 else 0xca)
            else (if st.lba48 then 0x25 else 0xc8)) * 0x10000 := by
  have hcl : st.tag * CL_DWORDS < st.cl.length := clIdx_lt st hwf
  have hct : ctSlot st.tag < st.ct.length := ctSlot_lt st hwf
  obtain ⟨mt, mdn, mtag, msec, mdma, mpo, mps⟩ := msg
  simp only at hdn hal hi hfail hmin ht ⊢
  subst hdn
  rcases ht with ht | ht <;> subst ht
  · rw [receive_read_eq env st mtag msec mdma mpo mps hal]
    set st1 := set_command env st (if st.lba48 then 0x25 else 0xc8) msec true
        (sum_length mdma >>> 9) false 0 0 with hst1
    have hwf1 : WF st1 := set_command_WF env st _ _ _ _ _ _ _ hwf
    have e1 : st1.tag = st.tag := rfl
    have hd0 : st1.cl.getD (st1.tag * CL_DWORDS) 0 = 5 := by
      rw [e1, hst1, set_command_cl_d0 env st _ _ _ _ _ _ _ hcl]
      decide
    have h516 : (5 : Nat) >>> 16 = 0 := by decide
    have hf := dmaLoop_fail env mpo mps mdma i st1 5 hwf1 (e1 ▸ hd0) hi
      (by rw [h516]; simpa using hfail)
      (by intro j hj; rw [h516]; simpa using hmin j hj)
    rw [hf.1]
    simp only [if_pos rfl]
    refine ⟨_, rfl, ?_, ?_, ?_, ?_, ?_, ?_⟩
    · exact ((dmaLoop_eqMeta env mpo mps mdma st1).2.2.2.2.2.2.2.2.2.1).trans
        ((set_command_eqMeta env st _ _ _ _ _ _ _).2.2.2.2.2.2.2.2.2.1)
    · exact ((dmaLoop_eqMeta env mpo mps mdma st1).2.2.2.2.2.2.1).trans
        ((set_command_eqMeta env st _ _ _ _ _ _ _).2.2.2.2.2.2.1)
    · exact ((dmaLoop_eqMeta env mpo mps mdma st1).2.2.2.2.2.2.2.2.1).trans
        ((set_command_eqMeta env st _ _ _ _ _ _ _).2.2.2.2.2.2.2.2.1)
    · exact ((dmaLoop_eqMeta env mpo mps mdma st1).2.2.2.2.2.2.2.2.2.2.1).trans
        ((set_command_eqMeta env st _ _ _ _ _ _ _).2.2.2.2.2.2.2.2.2.2.1)
    · have := hf.2
      rw [e1] at this
      rw [this]
      simp
    · have h1 := dmaLoop_ct_d0 env mpo mps mdma st1
      rw [e1] at h1
      rw [h1, hst1, set_command_ct_d0 env st _ _ _ _ _ _ _ hct]
      by_cases hl : st.lba48 <;> simp [hl, byte]
  · rw [receive_write_eq env st mtag msec mdma mpo mps hal]
    set st1 := set_command env st (if st.lba48 then 0x35 else 0xca) msec false
        (sum_length mdma >>> 9) false 0 0 with hst1
    have hwf1 : WF st1 := set_command_WF env st _ _ _ _ _ _ _ hwf
    have e1 : st1.tag = st.tag := rfl
    have hd0 : st1.cl.getD (st1.tag * CL_DWORDS) 0 = 0x45 := by
      rw [e1, hst1, set_command_cl_d0 env st _ _ _ _ _ _ _ hcl]
      decide
    have h516 : (0x45 : Nat) >>> 16 = 0 := by decide
    have hf := dmaLoop_fail env mpo mps mdma i st1 0x45 hwf1 (e1 ▸ hd0) hi
      (by rw [h516]; simpa using hfail)
      (by intro j hj; rw [h516]; simpa using hmin j hj)
    rw [hf.1]
    simp only [if_pos rfl]
    refine ⟨_, rfl, ?_, ?_, ?_, ?_, ?_, ?_⟩
    · exact ((dmaLoop_eqMeta env mpo mps mdma st1).2.2.2.2.2.2.2.2.2.1).trans
        ((set_command_eqMeta env st _ _ _ _ _ _ _).2.2.2.2.2.2.2.2.2.1)
    · exact ((dmaLoop_eqMeta env mpo mps mdma st1).2.2.2.2.2.2.1).trans
        ((set_command_eqMeta env st _ _ _ _ _ _ _).2.2.2.2.2.2.1)
    · exact ((dmaLoop_eqMeta env mpo mps mdma st1).2.2.2.2.2.2.2.2.1).trans
        ((set_command_eqMeta env st _ _ _ _ _ _ _).2.2.2.2.2.2.2.2.1)
    · exact ((dmaLoop_eqMeta env mpo mps mdma st1).2.2.2.2.2.2.2.2.2.2.1).trans
        ((set_command_eqMeta env st _ _ _ _ _ _ _).2.2.2.2.2.2.2.2.2.2.1)
    · have := hf.2
      rw [e1] at this
      rw [this]
      simp
    · have h1 := dmaLoop_ct_d0 env mpo mps mdma st1
      rw [e1] at h1
      rw [h1, hst1, set_command_ct_d0 env st _ _ _ _ _ _ _ hct]
      by_cases hl : st.lba48 <;> simp [hl, byte]

/-! ### Bit-level lemmas for the irq completion loop -/

theorem bsf_lt_32 (n : Nat) (h0 : n ≠ 0) (h32 : n < U32) : bsf n < 32 := by
  have h1 := Nat.testBit_implies_ge (bsf_testBit n h0)
  by_contra hge
  push_neg at hge
  have h2 : (2 : Nat) ^ 32 ≤ 2 ^ bsf n := Nat.pow_le_pow_right (by norm_num) hge
  have : n < 2 ^ 32 := h32
  omega

theorem testBit_not32 (z j : Nat) : (not32 z).testBit j = (decide (j < 32) && ! z.testBit j) := by
  unfold not32 U32
  rw [Nat.testBit_xor, Nat.testBit_two_pow_sub_one, Nat.testBit_mod_two_pow]
  by_cases hj : j < 32 <;> simp [hj]

theorem testBit_and_not32_shift (done t j : Nat) (h32 : done < U32) :
    (done &&& not32 (1 <<< t)).testBit j = (done.testBit j && !(j == t)) := by
  rw [Nat.testBit_and, testBit_not32]
  by_cases hj : j < 32
  · rw [Nat.shiftLeft_eq, one_mul, Nat.testBit_two_pow]
    by_cases hje : j = t
    · subst hje; simp [hj]
    · have hje' : ¬t = j := fun h => hje h.symm
      simp [hj, hje, hje']
  · have h1 : done.testBit j = false := by
      apply Nat.testBit_lt_two_pow
      calc done < U32 := h32
      _ = 2 ^ 32 := rfl
      _ ≤ 2 ^ j := Nat.pow_le_pow_right (by norm_num) (by omega)
    simp [h1]

theorem filter_range_cons (p q : Nat → Bool) (t : Nat)
    (hmin : ∀ j, j < t → p j = false) (hpt : p t = true)
    (hq : ∀ j, q j = (p j && !(j == t))) :
    ∀ n, t < n → (List.range n).filter p = t :: (List.range n).filter q := by
  intro n
  induction n with
  | zero => intro hn; omega
  | succ n ih =>
    intro hn
    rw [List.range_succ, List.filter_append, List.filter_append]
    by_cases hc : t < n
    · rw [ih hc]
      have hnbt : (n == t) = false := beq_eq_false_iff_ne.mpr (by omega)
      have hqn : q n = p n := by rw [hq, hnbt]; simp
      have hones : List.filter p [n] = List.filter q [n] := by
        rw [List.filter_cons, List.filter_cons, hqn]
        simp
      rw [hones]
      simp
    · have hteq : t = n := by omega
      subst hteq
      have h1 : (List.range t).filter p = [] := by
        rw [List.filter_eq_nil_iff]
        intro a ha
        rw [hmin a (List.mem_range.mp ha)]
        simp
      have h2 : (List.range t).filter q = [] := by
        rw [List.filter_eq_nil_iff]
        intro a ha
        rw [hq a, hmin a (List.mem_range.mp ha)]
        simp
      rw [h1, h2]
      simp [hpt, hq t]

theorem bitIndices_cons (done : Nat) (h0 : done ≠ 0) (h32 : done < U32) :
    bitIndices done = bsf done :: bitIndices (done &&& not32 (1 <<< bsf done)) := by
  unfold bitIndices
  exact filter_range_cons done.testBit (done &&& not32 (1 <<< bsf done)).testBit (bsf done)
    (fun j hj => bsf_min done j hj) (bsf_testBit done h0)
    (fun j => testBit_and_not32_shift done (bsf done) j h32)
    32 (bsf_lt_32 done h0 h32)

theorem mem_bitIndices (n j : Nat) : j ∈ bitIndices n ↔ (j < 32 ∧ n.testBit j = true) := by
  unfold bitIndices
  rw [List.mem_filter, List.mem_range]

theorem and_not32_not32 (x a b : Nat) :
    x &&& not32 a &&& not32 b = x &&& not32 (a ||| b) := by
  apply Nat.eq_of_testBit_eq
  intro j
  rw [Nat.testBit_and, Nat.testBit_and, Nat.testBit_and, testBit_not32, testBit_not32,
    testBit_not32, Nat.testBit_or]
  cases x.testBit j <;> cases a.testBit j <;> cases b.testBit j <;>
    by_cases hj : j < 32 <;> simp [hj]

theorem or_bsf_restore (done : Nat) (h0 : done ≠ 0) (h32 : done < U32) :
    (1 <<< bsf done) ||| (done &&& not32 (1 <<< bsf done)) = done := by
  have ht32 := bsf_lt_32 done h0 h32
  have htb := bsf_testBit done h0
  apply Nat.eq_of_testBit_eq
  intro j
  rw [Nat.testBit_or, testBit_and_not32_shift done (bsf done) j h32,
    Nat.shiftLeft_eq, one_mul, Nat.testBit_two_pow]
  by_cases hje : bsf done = j
  · subst hje; simp [htb]
  · have hje' : ¬j = bsf done := fun h => hje h.symm
    simp [hje, hje']

theorem and_not32_self_done (ip civ : Nat) (hip : ip < U32) :
    ip &&& not32 (ip &&& not32 civ) = ip &&& civ := by
  apply Nat.eq_of_testBit_eq
  intro j
  rw [Nat.testBit_and, testBit_not32, Nat.testBit_and, testBit_not32, Nat.testBit_and]
  by_cases hj : j < 32
  · cases h1 : ip.testBit j <;> cases h2 : civ.testBit j <;> simp [hj]
  · have h1 : ip.testBit j = false := by
      apply Nat.testBit_lt_two_pow
      calc ip < U32 := hip
      _ = 2 ^ 32 := rfl
      _ ≤ 2 ^ j := Nat.pow_le_pow_right (by norm_num) (by omega)
    simp [h1]

/-- Full characterisation of the `irq` completion loop: the commits are
exactly one per set bit of `done`, emitted lowest bit first with the
stored user tags; every visited tag slot is invalidated to `~0`; the
visited bits are cleared from `_inprogress`. -/
theorem irqLoop_spec (dn : Nat) : ∀ (done : Nat) (ut : List Nat) (ip : Nat),
    done < U32 → ut.length = 32 → ip < U32 →
    (irqLoop dn done ut ip).1 =
      (bitIndices done).map (fun t => ⟨dn, ut.getD t 0, DiskStatus.ok⟩) ∧
    ((irqLoop dn done ut ip).2.1.length = 32 ∧
      ∀ j, j < 32 → (irqLoop dn done ut ip).2.1.getD j 0 =
        if done.testBit j then U32 - 1 else ut.getD j 0) ∧
    (irqLoop dn done ut ip).2.2 = ip &&& not32 done := by
  intro done
  induction done using Nat.strong_induction_on with
  | _ done ih =>
    intro ut ip h32 hul hip
    by_cases h0 : done = 0
    · subst h0
      rw [irqLoop]
      simp only [dif_pos rfl]
      refine ⟨?_, ⟨hul, ?_⟩, ?_⟩
      · simp [bitIndices, Nat.zero_testBit]
      · intro j hj; simp [Nat.zero_testBit]
      · show ip = ip &&& not32 0
        rw [not32]
        simp only [Nat.zero_mod, Nat.xor_zero]
        rw [show U32 - 1 = 2 ^ 32 - 1 from rfl]
        exact (Nat.and_pow_two_sub_one_of_lt_two_pow hip).symm
    · rw [irqLoop]
      simp only [dif_neg h0]
      have htb := bsf_testBit done h0
      have ht32 : bsf done < 32 := bsf_lt_32 done h0 h32
      have hlt : done &&& not32 (1 <<< bsf done) < done := and_not32_bsf_lt done h0
      have h32' : done &&& not32 (1 <<< bsf done) < U32 := lt_trans hlt h32
      have hip' : ip &&& not32 (1 <<< bsf done) < U32 :=
        lt_of_le_of_lt Nat.and_le_left hip
      have hul' : (ut.set (bsf done) (U32 - 1)).length = 32 := by
        rw [List.length_set]; exact hul
      have IH := ih _ hlt (ut.set (bsf done) (U32 - 1)) (ip &&& not32 (1 <<< bsf done))
        h32' hul' hip'
      have hbit' : ∀ j, (done &&& not32 (1 <<< bsf done)).testBit j =
          (done.testBit j && !(j == bsf done)) :=
        fun j => testBit_and_not32_shift done (bsf done) j h32
      refine ⟨?_, ⟨IH.2.1.1, ?_⟩, ?_⟩
      · rw [IH.1, bitIndices_cons done h0 h32]
        simp only [List.map_cons, List.cons.injEq]
        refine ⟨trivial, ?_⟩
        apply List.map_congr_left
        intro s hs
        have hmem := (mem_bitIndices _ s).mp hs
        have hsne : s ≠ bsf done := by
          intro he
          rw [he, hbit' (bsf done)] at hmem
          simp at hmem
        simp only [Commit.mk.injEq]
        refine ⟨trivial, ?_, trivial⟩
        rw [getD_set_ne _ _ _ _ (fun he => hsne he.symm)]
      · intro j hj
        rw [IH.2.1.2 j hj, hbit' j]
        by_cases hje : j = bsf done
        · subst hje
          have hcond : (done.testBit (bsf done) && !(bsf done == bsf done)) = false := by
            simp
          rw [hcond, htb]
          rw [if_neg (by simp), if_pos rfl]
          exact getD_set_self ut (bsf done) (U32 - 1) (by omega)
        · have hb2 : (j == bsf done) = false := beq_eq_false_iff_ne.mpr hje
          rw [hb2]
          simp only [Bool.not_false, Bool.and_true]
          cases hdj : done.testBit j
          · rw [if_neg (by simp), if_neg (by simp)]
            exact getD_set_ne ut (bsf done) j (U32 - 1) (fun he => hje he.symm)
          · rw [if_pos rfl, if_pos rfl]
      · rw [IH.2.2, and_not32_not32, or_bsf_restore done h0 h32]

theorem irq_no_err (env : HostEnv) (ev : IrqEnv) (st : PortState) (htfd : ev.tfdv &&& 1 ≠ 1) :
    irq env ev st = some
      ((irqLoop st.disknr (st.inprogress &&& not32 ev.civ) st.usertags st.inprogress).1,
       { logw st RegName.is ev.isv with
          usertags := (irqLoop st.disknr (st.inprogress &&& not32 ev.civ) st.usertags
            st.inprogress).2.1,
          inprogress := (irqLoop st.disknr (st.inprogress &&& not32 ev.civ) st.usertags
            st.inprogress).2.2 }) := by
  simp only [irq]
  rw [if_neg htfd]
  rfl

/-- The tag stored by `start_command(u)` in the slot it issues: entry
`_tag` of `_usertags` becomes `u` (stated against the pre-`set_command`
state `st`, with `L` the state after `set_command` and the descriptor
loop, which touch neither `_tag` nor `_usertags`). -/
theorem usertag_after_start (L st : PortState) (u : Nat) (hm : eqMeta L st)
    (htag : st.tag < st.max_slots) (hms : st.max_slots ≤ 32)
    (hlen : st.usertags.length = 32) :
    (start_command L u).2.usertags.getD st.tag 0 = u := by
  have h7 := hm.2.2.2.2.2.2.1
  have h9 := hm.2.2.2.2.2.2.2.2.1
  show (L.usertags.set L.tag u).getD st.tag 0 = u
  rw [h7, h9]
  exact getD_set_self st.usertags st.tag u (by omega)

/-- C1 (amended): when `irq` observes CI with TFD.ERR clear, every
slot set in `_inprogress` and clear in CI yields exactly one commit
`{disknr, stored tag, Ok}`, visited lowest bit first; each such slot's
bit is cleared from `_inprogress` and its tag entry invalidated (other
entries untouched).  The stored tag is the consumer's `usertag` for an
accepted READ/WRITE (`start_command(msg.usertag)` writes it into the
issuing slot's `_usertags` entry), but a FLUSH_CACHE is issued with
`start_command(0)`: its commit carries tag 0, not the
consumer-supplied `usertag`. -/
theorem c1_completion_commits (env : HostEnv) (ev : IrqEnv) (st : PortState)
    (hwf : WF st) :
    (ev.tfdv &&& 1 ≠ 1 →
      ∃ st', irq env ev st =
        some ((bitIndices (st.inprogress &&& not32 ev.civ)).map
          (fun t => ⟨st.disknr, st.usertags.getD t 0, DiskStatus.ok⟩), st') ∧
      st'.inprogress = st.inprogress &&& ev.civ ∧
      (∀ j, j < 32 → (st.inprogress &&& not32 ev.civ).testBit j →
        st'.usertags.getD j 0 = U32 - 1) ∧
      (∀ j, j < 32 → ¬(st.inprogress &&& not32 ev.civ).testBit j →
        st'.usertags.getD j 0 = st.usertags.getD j 0)) ∧
    (∀ msg : MessageDisk, (msg.type = DiskOp.read ∨ msg.type = DiskOp.write) →
      msg.disknr = st.disknr →
      ∀ st2, receive env st msg = some (true, st2) →
        st2.usertags.getD st.tag 0 = msg.usertag) ∧
    (∀ msg : MessageDisk, msg.type = DiskOp.flush_cache → msg.disknr = st.disknr →
      ∃ st2, receive env st msg = some (true, st2) ∧
        st2.usertags.getD st.tag 0 = 0) := by
  obtain ⟨hms1, hms32, htag, hcll, hctl, hutl, hip, hclb, hctb⟩ := hwf
  have hdone : st.inprogress &&& not32 ev.civ < U32 := lt_of_le_of_lt Nat.and_le_left hip
  have hspec := irqLoop_spec st.disknr (st.inprogress &&& not32 ev.civ) st.usertags
    st.inprogress hdone hutl hip
  refine ⟨?_, ?_, ?_⟩
  · intro htfd
    refine ⟨{ logw st RegName.is ev.isv with
        usertags := (irqLoop st.disknr (st.inprogress &&& not32 ev.civ) st.usertags
          st.inprogress).2.1,
        inprogress := (irqLoop st.disknr (st.inprogress &&& not32 ev.civ) st.usertags
          st.inprogress).2.2 }, ?_, ?_, ?_, ?_⟩
    · rw [irq_no_err env ev st htfd, hspec.1]
    · show (irqLoop st.disknr (st.inprogress &&& not32 ev.civ) st.usertags
          st.inprogress).2.2 = st.inprogress &&& ev.civ
      rw [hspec.2.2, and_not32_self_done _ _ hip]
    · intro j hj hb
      show (irqLoop st.disknr (st.inprogress &&& not32 ev.civ) st.usertags
          st.inprogress).2.1.getD j 0 = U32 - 1
      rw [hspec.2.1.2 j hj, if_pos hb]
    · intro j hj hb
      show (irqLoop st.disknr (st.inprogress &&& not32 ev.civ) st.usertags
          st.inprogress).2.1.getD j 0 = st.usertags.getD j 0
      rw [hspec.2.1.2 j hj, if_neg hb]
  · intro msg hty hdn st2 hrec
    obtain ⟨mt, mdn, mtag, msec, mdma, mpo, mps⟩ := msg
    simp only at hty hdn hrec ⊢
    subst hdn
    rcases hty with ht | ht <;> subst ht
    · by_cases hal : sum_length mdma &&& 0x1ff = 0
      · rw [receive_read_eq env st mtag msec mdma mpo mps hal] at hrec
        split_ifs at hrec
        all_goals
          simp only [Option.some.injEq, Prod.mk.injEq, Bool.false_eq_true,
            false_and, true_and] at hrec
        all_goals rw [← hrec]
        all_goals
          exact usertag_after_start _ st mtag
            (eqMeta_trans (dmaLoop_eqMeta env mpo mps mdma _)
              (set_command_eqMeta env st _ _ _ _ _ _ _)) htag hms32 hutl
      · rw [show receive env st ⟨DiskOp.read, st.disknr, mtag, msec, mdma, mpo, mps⟩ =
            some (false, st) from by unfold receive; simp [hal]] at hrec
        simp only [Option.some.injEq, Prod.mk.injEq, Bool.false_eq_true,
          false_and] at hrec
    · by_cases hal : sum_length mdma &&& 0x1ff = 0
      · rw [receive_write_eq env st mtag msec mdma mpo mps hal] at hrec
        split_ifs at hrec
        all_goals
          simp only [Option.some.injEq, Prod.mk.injEq, Bool.false_eq_true,
            false_and, true_and] at hrec
        all_goals rw [← hrec]
        all_goals
          exact usertag_after_start _ st mtag
            (eqMeta_trans (dmaLoop_eqMeta env mpo mps mdma _)
              (set_command_eqMeta env st _ _ _ _ _ _ _)) htag hms32 hutl
      · rw [show receive env st ⟨DiskOp.write, st.disknr, mtag, msec, mdma, mpo, mps⟩ =
            some (false, st) from by unfold receive; simp [hal]] at hrec
        simp only [Option.some.injEq, Prod.mk.injEq, Bool.false_eq_true,
          false_and] at hrec
  · intro msg hty hdn
    obtain ⟨mt, mdn, mtag, msec, mdma, mpo, mps⟩ := msg
    simp only at hty hdn
    subst hty
    subst hdn
    rw [receive_flush_eq env st mtag msec mdma mpo mps]
    refine ⟨_, rfl, ?_⟩
    show (st.usertags.set st.tag 0).getD st.tag 0 = 0
    exact getD_set_self st.usertags st.tag 0 (by omega)

/-- A concrete host environment: the identity virtual-to-physical
translation. -/
def env0 : HostEnv := ⟨fun a => a⟩

/-- A concrete well-formed port state: disk 0, 2 slots, IOMMU present,
zeroed DMA arrays, user tags all 7, LBA48 drive. -/
def st0 : PortState :=
  mkPort 0 2 true 0x10000 0x20000 0x30000 (List.replicate 16 0) (List.replicate 576 0)
    (List.replicate 32 7) 0 true

/-- A concrete irq environment: nothing pending in IS, CI all clear,
TFD without ERR. -/
def ev0 : IrqEnv := ⟨0, 0, 0, ⟨0, false, false, false, false, fun _ => 0,
  ⟨0x40000, false, 0xc837, 0, true⟩⟩⟩

/-- The port state after the counterexample FLUSH_CACHE was submitted
to `st0`. -/
def st1cex : PortState := (start_command (set_command env0 st0 0xea 0 true 0 false 0 0) 0).2

set_option maxRecDepth 20000 in
/-- C1, counterexample: a FLUSH_CACHE submitted with caller tag 0xABCD
stores tag 0 in the slot, so the commit emitted when the device
completes it (CI bit clear in the following irq) carries tag 0, not
0xABCD. -/
theorem c1_flush_tag_cex :
    ((receive env0 st0 ⟨DiskOp.flush_cache, 0, 0xABCD, 0, [], 0, 0⟩).map
        (fun r => r.2.usertags.getD 0 0) = some 0) ∧
    ((receive env0 st0 ⟨DiskOp.flush_cache, 0, 0xABCD, 0, [], 0, 0⟩).bind
        (fun r => irq env0 ev0 r.2)).map (fun q => q.1) =
      some [⟨0, 0, DiskStatus.ok⟩] ∧
    (0 : Nat) ≠ 0xABCD := by
  have hrecv : receive env0 st0 ⟨DiskOp.flush_cache, 0, 0xABCD, 0, [], 0, 0⟩ =
      some (true, st1cex) := by decide
  refine ⟨by decide, ?_, by decide⟩
  rw [hrecv]
  show (irq env0 ev0 st1cex).map (fun q => q.1) = some [⟨0, 0, DiskStatus.ok⟩]
  rw [irq_no_err env0 ev0 st1cex (by decide)]
  show some ((irqLoop st1cex.disknr (st1cex.inprogress &&& not32 ev0.civ) st1cex.usertags
      st1cex.inprogress).1) = some [⟨0, 0, DiskStatus.ok⟩]
  rw [(irqLoop_spec st1cex.disknr (st1cex.inprogress &&& not32 ev0.civ) st1cex.usertags
      st1cex.inprogress (by decide) (by decide) (by decide)).1]
  decide

theorem add_prd_success (env : HostEnv) (st : PortState) (buffer count : Nat)
    (hc2 : count % 2 = 0) (hc22 : count < 2 ^ 22)
    (hprd : st.cl.getD (st.tag * CL_DWORDS) 0 >>> 16 < MAX_PRD_COUNT) :
    add_prd env st buffer count =
      some (false, { st with
        cl := st.cl.set (st.tag * CL_DWORDS)
          ((st.cl.getD (st.tag * CL_DWORDS) 0 + (1 <<< 16)) % U32),
        ct := ((st.ct.set (prdIndex st.tag (st.cl.getD (st.tag * CL_DWORDS) 0 >>> 16))
            (addr2phys env st.dmar buffer)).set
            (prdIndex st.tag (st.cl.getD (st.tag * CL_DWORDS) 0 >>> 16) + 1) 0).set
            (prdIndex st.tag (st.cl.getD (st.tag * CL_DWORDS) 0 >>> 16) + 3)
            (sub1_32 count) }) := by
  have hsr : ¬count >>> 22 ≠ 0 := by rw [shiftRight22_ne]; omega
  simp only [add_prd]
  rw [if_neg (by omega : ¬count % 2 = 1), if_neg hsr,
    if_neg (by omega : ¬MAX_PRD_COUNT ≤ st.cl.getD (st.tag * CL_DWORDS) 0 >>> 16)]

/-- The state of a port after IDENTIFY's `set_command` result `st1` got
its single 512-byte PRD appended (header dword 0 was 5, so it becomes
0x10005 = 65541 and the PRD byte-count dword is 511). -/
def identAdd (env : HostEnv) (bufAddr : Nat) (st1 : PortState) : PortState :=
  { st1 with
    cl := st1.cl.set (st1.tag * CL_DWORDS) 65541,
    ct := ((st1.ct.set (prdIndex st1.tag 0) (addr2phys env st1.dmar bufAddr)).set
        (prdIndex st1.tag 0 + 1) 0).set (prdIndex st1.tag 0 + 3) 511 }

/-- What `identify_drive` does, for any outcome of the CI poll and the
IDENTIFY assert: the ATA command byte 0xEC is written into the current
slot's FIS, exactly one PRD (count field 1) of 512 bytes
(byte-count-minus-one dword 511) pointing at the caller's buffer is
appended, and the logged poll is on CI mask `1 << _tag`. -/
theorem identify_props (env : HostEnv) (ie : IdentEnv) (st : PortState) (hwf : WF st) :
    (∀ code stR, identify_drive env ie st = some (code, stR) →
      fisCommandByte stR st.tag = 0xec ∧
      stR.cl.getD (st.tag * CL_DWORDS) 0 >>> 16 = 1 ∧
      stR.ct.getD (prdIndex st.tag 0) 0 = addr2phys env st.dmar ie.bufAddr ∧
      stR.ct.getD (prdIndex st.tag 0 + 3) 0 = 511 ∧
      stR.waits = st.waits ++ [⟨RegName.ci, (1 <<< st.tag) % U32, 0⟩]) ∧
    (ie.bufWord2 = 0xc837 → ∃ code stR, identify_drive env ie st = some (code, stR)) := by
  have hcl : st.tag * CL_DWORDS < st.cl.length := clIdx_lt st hwf
  have hct : ctSlot st.tag < st.ct.length := ctSlot_lt st hwf
  set st1 := set_command env st 0xec 0 true 0 false 0 0 with hst1
  have hwf1 : WF st1 := set_command_WF env st 0xec 0 true 0 false 0 0 hwf
  have hd0 : st1.cl.getD (st1.tag * CL_DWORDS) 0 = 5 := by
    show (set_command env st 0xec 0 true 0 false 0 0).cl.getD (st.tag * CL_DWORDS) 0 = 5
    rw [set_command_cl_d0 env st _ _ _ _ _ _ _ hcl]
    decide
  have hprd1 : st1.cl.getD (st1.tag * CL_DWORDS) 0 >>> 16 < MAX_PRD_COUNT := by
    rw [hd0]; decide
  have hap := add_prd_success env st1 ie.bufAddr 512 (by norm_num) (by norm_num) hprd1
  rw [hd0, show (5 : Nat) >>> 16 = 0 by decide,
    show ((5 : Nat) + 1 <<< 16) % U32 = 65541 by decide,
    show sub1_32 512 = 511 by decide] at hap
  have hap2 : add_prd env st1 ie.bufAddr 512 = some (false, identAdd env ie.bufAddr st1) := hap
  have hshape : identify_drive env ie st =
      (if ie.ciTimeout then
        some (1, logwait (start_command (identAdd env ie.bufAddr st1) 0).2 RegName.ci
          (1 <<< st.tag) 0)
      else if ie.bufWord2 = 0xc837 then
        some (ie.updateCode,
          { logwait (start_command (identAdd env ie.bufAddr st1) 0).2 RegName.ci
              (1 <<< st.tag) 0 with
            inprogress := (logwait (start_command (identAdd env ie.bufAddr st1) 0).2 RegName.ci
              (1 <<< st.tag) 0).inprogress &&& not32 (1 <<< st.tag),
            lba48 := ie.lba48Parsed })
      else none) := by
    simp only [identify_drive]
    rw [← hst1, hap2]
    rfl
  have hwl1 : (identAdd env ie.bufAddr st1).cl.length = st.cl.length := by
    show (st1.cl.set (st1.tag * CL_DWORDS) 65541).length = st.cl.length
    rw [List.length_set]
    exact set_command_cl_length env st _ _ _ _ _ _ _
  have hwt1 : (identAdd env ie.bufAddr st1).ct.length = st.ct.length := by
    show (((st1.ct.set (prdIndex st1.tag 0) (addr2phys env st1.dmar ie.bufAddr)).set
        (prdIndex st1.tag 0 + 1) 0).set (prdIndex st1.tag 0 + 3) 511).length = st.ct.length
    simp only [List.length_set]
    exact set_command_ct_length env st _ _ _ _ _ _ _
  have hprdlt : prdIndex st.tag 0 + 3 < st.ct.length := by
    obtain ⟨hms1, hms32, htag, hcll, hctl, hutl, hip, hclb, hctb⟩ := hwf
    simp only [prdIndex, MAX_PRD_COUNT] at *
    rw [hctl]
    omega
  have hprops : ∀ stR : PortState,
      stR.cl = (identAdd env ie.bufAddr st1).cl →
      stR.ct = (identAdd env ie.bufAddr st1).ct →
      stR.waits = (logwait (start_command (identAdd env ie.bufAddr st1) 0).2 RegName.ci
        (1 <<< st.tag) 0).waits →
      fisCommandByte stR st.tag = 0xec ∧
      stR.cl.getD (st.tag * CL_DWORDS) 0 >>> 16 = 1 ∧
      stR.ct.getD (prdIndex st.tag 0) 0 = addr2phys env st.dmar ie.bufAddr ∧
      stR.ct.getD (prdIndex st.tag 0 + 3) 0 = 511 ∧
      stR.waits = st.waits ++ [⟨RegName.ci, (1 <<< st.tag) % U32, 0⟩] := by
    intro stR hclR hctR hwR
    refine ⟨?_, ?_, ?_, ?_, ?_⟩
    · unfold fisCommandByte
      rw [hctR]
      show ((((st1.ct.set (prdIndex st.tag 0) (addr2phys env st.dmar ie.bufAddr)).set
          (prdIndex st.tag 0 + 1) 0).set (prdIndex st.tag 0 + 3) 511).getD
          (ctSlot st.tag) 0) >>> 16 &&& 0xff = 0xec
      rw [getD_set_ne _ _ _ _ (by simp only [prdIndex, ctSlot, MAX_PRD_COUNT]; omega),
        getD_set_ne _ _ _ _ (by simp only [prdIndex, ctSlot, MAX_PRD_COUNT]; omega),
        getD_set_ne _ _ _ _ (by simp only [prdIndex, ctSlot, MAX_PRD_COUNT]; omega)]
      have hctd := set_command_ct_d0 env st 0xec 0 true 0 false 0 0 hct
      rw [← hst1] at hctd
      rw [hctd]
      decide
    · rw [hclR]
      show ((st1.cl.set (st.tag * CL_DWORDS) 65541).getD (st.tag * CL_DWORDS) 0) >>> 16 = 1
      rw [getD_set_self _ _ _ (by
        rw [set_command_cl_length env st _ _ _ _ _ _ _]
        exact hcl)]
      decide
    · rw [hctR]
      show (((st1.ct.set (prdIndex st.tag 0) (addr2phys env st.dmar ie.bufAddr)).set
          (prdIndex st.tag 0 + 1) 0).set (prdIndex st.tag 0 + 3) 511).getD
          (prdIndex st.tag 0) 0 = addr2phys env st.dmar ie.bufAddr
      rw [getD_set_ne _ _ _ _ (by omega), getD_set_ne _ _ _ _ (by omega),
        getD_set_self _ _ _ (by
          rw [set_command_ct_length env st _ _ _ _ _ _ _]
          omega)]
    · rw [hctR]
      show (((st1.ct.set (prdIndex st.tag 0) (addr2phys env st.dmar ie.bufAddr)).set
          (prdIndex st.tag 0 + 1) 0).set (prdIndex st.tag 0 + 3) 511).getD
          (prdIndex st.tag 0 + 3) 0 = 511
      rw [getD_set_self _ _ _ (by
        simp only [List.length_set]
        rw [set_command_ct_length env st _ _ _ _ _ _ _]
        omega)]
    · rw [hwR]
      rfl
  constructor
  · intro code stR heq
    rw [hshape] at heq
    split_ifs at heq with hc hw
    · have h2 : stR = logwait (start_command (identAdd env ie.bufAddr st1) 0).2 RegName.ci
          (1 <<< st.tag) 0 := by
        cases heq
        rfl
      subst h2
      exact hprops _ rfl rfl rfl
    · have h2 : stR = { logwait (start_command (identAdd env ie.bufAddr st1) 0).2 RegName.ci
            (1 <<< st.tag) 0 with
          inprogress := (logwait (start_command (identAdd env ie.bufAddr st1) 0).2 RegName.ci
            (1 <<< st.tag) 0).inprogress &&& not32 (1 <<< st.tag),
          lba48 := ie.lba48Parsed } := by
        cases heq
        rfl
      subst h2
      exact hprops _ rfl rfl rfl
  · intro hw
    rw [hshape]
    by_cases hc : ie.ciTimeout
    · rw [if_pos hc]
      exact ⟨1, _, rfl⟩
    · rw [if_neg hc, if_pos hw]
      exact ⟨ie.updateCode, _, rfl⟩

/-- The state after `init`'s stop phase (CMD had one of bits
{0,3,14,15} set): two CMD read-modify-writes with their polls; only the
logs change. -/
def stopPhase (ev : InitEnv) (st : PortState) : PortState :=
  logwait (logw (logwait (logw st RegName.cmd (ev.cmdVals 1 &&& not32 1)) RegName.cmd
    (1 <<< 15) 0) RegName.cmd (ev.cmdVals 2 &&& not32 0x10)) RegName.cmd (1 <<< 14) 0

/-- The state `initRest` passes to `identify_drive` when neither the
FRE nor the CLO poll times out: CLB/FB programmed, SERR/IS cleared,
CMD bits set, `_inprogress` reset to 0, IE written. -/
def preIdent (env : HostEnv) (ev : InitEnv) (st : PortState) : PortState :=
  { disknr := st.disknr, max_slots := st.max_slots, dmar := st.dmar,
    cl_base := st.cl_base, ct_base := st.ct_base, fis_base := st.fis_base,
    cl := st.cl, ct := st.ct, tag := st.tag, lba48 := st.lba48,
    usertags := st.usertags, inprogress := 0,
    mmio := ((((((((((st.mmio ++ [⟨RegName.clb, addr2phys env st.dmar st.cl_base % U32⟩]) ++
      [⟨RegName.clbu, 0 % U32⟩]) ++ [⟨RegName.fb, addr2phys env st.dmar st.fis_base % U32⟩]) ++
      [⟨RegName.fbu, 0 % U32⟩]) ++ [⟨RegName.serr, (U32 - 1) % U32⟩]) ++
      [⟨RegName.is, (U32 - 1) % U32⟩]) ++ [⟨RegName.cmd, (ev.cmdVals 3 ||| 0x10) % U32⟩]) ++
      [⟨RegName.cmd, (ev.cmdVals 4 ||| 0x8) % U32⟩]) ++
      [⟨RegName.cmd, (ev.cmdVals 5 ||| 0x1) % U32⟩]) ++ [⟨RegName.ie, 0xf98000f1 % U32⟩]),
    waits := (st.waits ++ [⟨RegName.cmd, (1 <<< 15) % U32, 0 % U32⟩]) ++
      [⟨RegName.cmd, 0x8 % U32, 0 % U32⟩] }

theorem preIdent_cl (env : HostEnv) (ev : InitEnv) (s : PortState) :
    (preIdent env ev s).cl = s.cl := rfl

theorem preIdent_ct (env : HostEnv) (ev : InitEnv) (s : PortState) :
    (preIdent env ev s).ct = s.ct := rfl

theorem preIdent_tag (env : HostEnv) (ev : InitEnv) (s : PortState) :
    (preIdent env ev s).tag = s.tag := rfl

theorem preIdent_max_slots (env : HostEnv) (ev : InitEnv) (s : PortState) :
    (preIdent env ev s).max_slots = s.max_slots := rfl

theorem preIdent_usertags (env : HostEnv) (ev : InitEnv) (s : PortState) :
    (preIdent env ev s).usertags = s.usertags := rfl

theorem preIdent_inprogress (env : HostEnv) (ev : InitEnv) (s : PortState) :
    (preIdent env ev s).inprogress = 0 := rfl

theorem preIdent_dmar (env : HostEnv) (ev : InitEnv) (s : PortState) :
    (preIdent env ev s).dmar = s.dmar := rfl

theorem logw_disknr (s : PortState) (r : RegName) (v : Nat) :
    (logw s r v).disknr = s.disknr := rfl

theorem logw_max_slots (s : PortState) (r : RegName) (v : Nat) :
    (logw s r v).max_slots = s.max_slots := rfl

theorem logw_dmar (s : PortState) (r : RegName) (v : Nat) :
    (logw s r v).dmar = s.dmar := rfl

theorem logw_cl_base (s : PortState) (r : RegName) (v : Nat) :
    (logw s r v).cl_base = s.cl_base := rfl

theorem logw_ct_base (s : PortState) (r : RegName) (v : Nat) :
    (logw s r v).ct_base = s.ct_base := rfl

theorem logw_fis_base (s : PortState) (r : RegName) (v : Nat) :
    (logw s r v).fis_base = s.fis_base := rfl

theorem logw_cl (s : PortState) (r : RegName) (v : Nat) :
    (logw s r v).cl = s.cl := rfl

theorem logw_ct (s : PortState) (r : RegName) (v : Nat) :
    (logw s r v).ct = s.ct := rfl

theorem logw_tag (s : PortState) (r : RegName) (v : Nat) :
    (logw s r v).tag = s.tag := rfl

theorem logw_lba48 (s : PortState) (r : RegName) (v : Nat) :
    (logw s r v).lba48 = s.lba48 := rfl

theorem logw_usertags (s : PortState) (r : RegName) (v : Nat) :
    (logw s r v).usertags = s.usertags := rfl

theorem logw_inprogress (s : PortState) (r : RegName) (v : Nat) :
    (logw s r v).inprogress = s.inprogress := rfl

theorem logw_mmio (s : PortState) (r : RegName) (v : Nat) :
    (logw s r v).mmio = s.mmio ++ [⟨r, v % U32⟩] := rfl

theorem logw_waits (s : PortState) (r : RegName) (v : Nat) :
    (logw s r v).waits = s.waits := rfl

theorem logwait_disknr (s : PortState) (r : RegName) (m v : Nat) :
    (logwait s r m v).disknr = s.disknr := rfl

theorem logwait_max_slots (s : PortState) (r : RegName) (m v : Nat) :
    (logwait s r m v).max_slots = s.max_slots := rfl

theorem logwait_dmar (s : PortState) (r : RegName) (m v : Nat) :
    (logwait s r m v).dmar = s.dmar := rfl

theorem logwait_cl_base (s : PortState) (r : RegName) (m v : Nat) :
    (logwait s r m v).cl_base = s.cl_base := rfl

theorem logwait_ct_base (s : PortState) (r : RegName) (m v : Nat) :
    (logwait s r m v).ct_base = s.ct_base := rfl

theorem logwait_fis_base (s : PortState) (r : RegName) (m v : Nat) :
    (logwait s r m v).fis_base = s.fis_base := rfl

theorem logwait_cl (s : PortState) (r : RegName) (m v : Nat) :
    (logwait s r m v).cl = s.cl := rfl

theorem logwait_ct (s : PortState) (r : RegName) (m v : Nat) :
    (logwait s r m v).ct = s.ct := rfl

theorem logwait_tag (s : PortState) (r : RegName) (m v : Nat) :
    (logwait s r m v).tag = s.tag := rfl

theorem logwait_lba48 (s : PortState) (r : RegName) (m v : Nat) :
    (logwait s r m v).lba48 = s.lba48 := rfl

theorem logwait_usertags (s : PortState) (r : RegName) (m v : Nat) :
    (logwait s r m v).usertags = s.usertags := rfl

theorem logwait_inprogress (s : PortState) (r : RegName) (m v : Nat) :
    (logwait s r m v).inprogress = s.inprogress := rfl

theorem logwait_mmio (s : PortState) (r : RegName) (m v : Nat) :
    (logwait s r m v).mmio = s.mmio := rfl

theorem logwait_waits (s : PortState) (r : RegName) (m v : Nat) :
    (logwait s r m v).waits = s.waits ++ [⟨r, m % U32, v % U32⟩] := rfl

theorem izero_disknr (s : PortState) :
    ({ s with inprogress := 0 } : PortState).disknr = s.disknr := rfl

theorem izero_max_slots (s : PortState) :
    ({ s with inprogress := 0 } : PortState).max_slots = s.max_slots := rfl

theorem izero_dmar (s : PortState) :
    ({ s with inprogress := 0 } : PortState).dmar = s.dmar := rfl

theorem izero_cl_base (s : PortState) :
    ({ s with inprogress := 0 } : PortState).cl_base = s.cl_base := rfl

theorem izero_ct_base (s : PortState) :
    ({ s with inprogress := 0 } : PortState).ct_base = s.ct_base := rfl

theorem izero_fis_base (s : PortState) :
    ({ s with inprogress := 0 } : PortState).fis_base = s.fis_base := rfl

theorem izero_cl (s : PortState) :
    ({ s with inprogress := 0 } : PortState).cl = s.cl := rfl

theorem izero_ct (s : PortState) :
    ({ s with inprogress := 0 } : PortState).ct = s.ct := rfl

theorem izero_tag (s : PortState) :
    ({ s with inprogress := 0 } : PortState).tag = s.tag := rfl

theorem izero_lba48 (s : PortState) :
    ({ s with inprogress := 0 } : PortState).lba48 = s.lba48 := rfl

theorem izero_usertags (s : PortState) :
    ({ s with inprogress := 0 } : PortState).usertags = s.usertags := rfl

theorem izero_inprogress (s : PortState) :
    ({ s with inprogress := 0 } : PortState).inprogress = 0 := rfl

theorem izero_mmio (s : PortState) :
    ({ s with inprogress := 0 } : PortState).mmio = s.mmio := rfl

theorem izero_waits (s : PortState) :
    ({ s with inprogress := 0 } : PortState).waits = s.waits := rfl

theorem portState_ext (a b : PortState)
    (e1 : a.disknr = b.disknr) (e2 : a.max_slots = b.max_slots) (e3 : a.dmar = b.dmar) (e4 : a.cl_base = b.cl_base) (e5 : a.ct_base = b.ct_base) (e6 : a.fis_base = b.fis_base) (e7 : a.cl = b.cl) (e8 : a.ct = b.ct) (e9 : a.tag = b.tag) (e10 : a.lba48 = b.lba48) (e11 : a.usertags = b.usertags) (e12 : a.inprogress = b.inprogress) (e13 : a.mmio = b.mmio) (e14 : a.waits = b.waits) : a = b := by
  cases a
  cases b
  simp only at e1 e2 e3 e4 e5 e6 e7 e8 e9 e10 e11 e12 e13 e14
  subst e1
  subst e2
  subst e3
  subst e4
  subst e5
  subst e6
  subst e7
  subst e8
  subst e9
  subst e10
  subst e11
  subst e12
  subst e13
  subst e14
  rfl

theorem initRest_no_timeout (env : HostEnv) (ev : InitEnv) (st : PortState)
    (h3 : ev.creWait = false) (h4 : ev.cloWait = false) :
    initRest env ev st = identify_drive env ev.ident (preIdent env ev st) := by
  simp only [initRest, h3, h4, Bool.false_eq_true, if_false]
  apply congrArg (identify_drive env ev.ident)
  apply portState_ext <;>
    simp only [preIdent, logw_disknr, logw_max_slots, logw_dmar, logw_cl_base, logw_ct_base, logw_fis_base, logw_cl, logw_ct, logw_tag, logw_lba48, logw_usertags, logw_inprogress, logw_mmio, logw_waits, logwait_disknr, logwait_max_slots, logwait_dmar, logwait_cl_base, logwait_ct_base, logwait_fis_base, logwait_cl, logwait_ct, logwait_tag, logwait_lba48, logwait_usertags, logwait_inprogress, logwait_mmio, logwait_waits, izero_disknr, izero_max_slots, izero_dmar, izero_cl_base, izero_ct_base, izero_fis_base, izero_cl, izero_ct, izero_tag, izero_lba48, izero_usertags, izero_inprogress, izero_mmio, izero_waits]

theorem init_no_timeout (env : HostEnv) (ev : InitEnv) (st : PortState)
    (h1 : ev.stopWait1 = false) (h2 : ev.stopWait2 = false)
    (h3 : ev.creWait = false) (h4 : ev.cloWait = false) :
    init env ev st = identify_drive env ev.ident
      (preIdent env ev (if ev.cmd0 &&& 0xc009 ≠ 0 then stopPhase ev st else st)) := by
  simp only [init, h1, h2, Bool.false_eq_true, if_false]
  split_ifs with hc
  · rw [initRest_no_timeout env ev _ h3 h4]
    rfl
  · rw [initRest_no_timeout env ev _ h3 h4]

theorem WF_transfer (st s : PortState) (hwf : WF st)
    (hcl : s.cl = st.cl) (hct : s.ct = st.ct) (htg : s.tag = st.tag)
    (hms : s.max_slots = st.max_slots) (hut : s.usertags = st.usertags)
    (hip : s.inprogress < U32) : WF s := by
  obtain ⟨hms1, hms32, htag, hcll, hctl, hutl, hipp, hclb, hctb⟩ := hwf
  exact ⟨by rw [hms]; exact hms1, by rw [hms]; exact hms32,
    by rw [htg, hms]; exact htag, by rw [hcl, hms]; exact hcll,
    by rw [hct, hms]; exact hctl, by rw [hut]; exact hutl, hip,
    by rw [hcl]; exact hclb, by rw [hct]; exact hctb⟩

set_option maxHeartbeats 2000000 in
/-- C2 (amended): a call to `init` that passes all four bring-up polls
reaches IDENTIFY DEVICE: command 0xEC is written into the FIS of slot
`next_tag` (the round-robin cursor — slot 0 only at first bring-up,
where the constructor set the cursor to 0), with a single 512-byte PRD
pointing at the caller-supplied buffer, and then polls CI on bit
`next_tag` (the last recorded wait). -/
theorem c2_identify_slot (env : HostEnv) (ev : InitEnv) (st : PortState) (hwf : WF st)
    (h1 : ev.stopWait1 = false) (h2 : ev.stopWait2 = false)
    (h3 : ev.creWait = false) (h4 : ev.cloWait = false) :
    (∀ code stR, init env ev st = some (code, stR) →
      fisCommandByte stR st.tag = 0xec ∧
      stR.cl.getD (st.tag * CL_DWORDS) 0 >>> 16 = 1 ∧
      stR.ct.getD (prdIndex st.tag 0) 0 = addr2phys env st.dmar ev.ident.bufAddr ∧
      stR.ct.getD (prdIndex st.tag 0 + 3) 0 = 511 ∧
      stR.waits.getLast? = some ⟨RegName.ci, (1 <<< st.tag) % U32, 0⟩) ∧
    (ev.ident.bufWord2 = 0xc837 → ∃ code stR, init env ev st = some (code, stR)) ∧
    (st.tag = 0 → (1 <<< st.tag) % U32 = 1 <<< 0) := by
  have hinit := init_no_timeout env ev st h1 h2 h3 h4
  have hS : ∀ s : PortState, s = (if ev.cmd0 &&& 0xc009 ≠ 0 then stopPhase ev st else st) →
      s.cl = st.cl ∧ s.ct = st.ct ∧ s.tag = st.tag ∧ s.max_slots = st.max_slots ∧
      s.usertags = st.usertags ∧ s.inprogress = st.inprogress ∧ s.dmar = st.dmar := by
    intro s hs
    split_ifs at hs <;> subst hs <;> exact ⟨rfl, rfl, rfl, rfl, rfl, rfl, rfl⟩
  obtain ⟨hscl, hsct, hstg, hsms, hsut, hsip, hsdm⟩ :=
    hS (if ev.cmd0 &&& 0xc009 ≠ 0 then stopPhase ev st else st) rfl
  set S := if ev.cmd0 &&& 0xc009 ≠ 0 then stopPhase ev st else st with hSdef
  have hPcl : (preIdent env ev S).cl = st.cl := (preIdent_cl env ev S).trans hscl
  have hPct : (preIdent env ev S).ct = st.ct := (preIdent_ct env ev S).trans hsct
  have hPtg : (preIdent env ev S).tag = st.tag := (preIdent_tag env ev S).trans hstg
  have hPwf : WF (preIdent env ev S) := by
    refine WF_transfer st _ hwf hPcl hPct hPtg
      ((preIdent_max_slots env ev S).trans hsms)
      ((preIdent_usertags env ev S).trans hsut) ?_
    rw [preIdent_inprogress env ev S, U32_eq]
    omega
  have hprops := identify_props env ev.ident (preIdent env ev S) hPwf
  refine ⟨?_, ?_, ?_⟩
  · intro code stR heq
    rw [hinit] at heq
    have h5 := hprops.1 code stR heq
    rw [hPtg] at h5
    obtain ⟨p1, p2, p3, p4, p5⟩ := h5
    refine ⟨p1, p2, ?_, p4, ?_⟩
    · rw [p3, preIdent_dmar env ev S, hsdm]
    · rw [p5, List.getLast?_concat]
  · intro hw
    obtain ⟨code, stR, hsome⟩ := hprops.2 hw
    exact ⟨code, stR, by rw [hinit]; exact hsome⟩
  · intro h0
    rw [h0]
    decide

/-- A concrete init environment: CMD reads back 0 (no stop phase), no
poll times out, IDENTIFY succeeds with word 2 = 0xC837. -/
def evI0 : InitEnv := ⟨0, false, false, false, false, fun _ => 0,
  ⟨0x40000, false, 0xc837, 0, true⟩⟩

set_option maxRecDepth 20000 in
/-- C2, counterexample: on the reachable state `st1cex` (one FLUSH was
submitted, so `_tag` = 1), the re-init issues IDENTIFY into slot 1, not
slot 0: the recorded CI poll is on mask 2 = `1 << 1` (not bit 0), slot
1's FIS holds 0xEC, and slot 0's FIS still holds the flush command
0xEA. -/
theorem c2_slot_cex :
    (init env0 evI0 st1cex).map (fun r => r.2.waits.getLast?) =
      some (some ⟨RegName.ci, 2, 0⟩) ∧
    (init env0 evI0 st1cex).map (fun r => fisCommandByte r.2 1) = some 0xec ∧
    (init env0 evI0 st1cex).map (fun r => fisCommandByte r.2 0) = some 0xea ∧
    (⟨RegName.ci, 2, 0⟩ : WaitEvt) ≠ ⟨RegName.ci, 1 <<< 0, 0⟩ := by
  refine ⟨by decide, by decide, by decide, by decide⟩

/-! ### Slot invariant (C7) -/

theorem popCount_le (k : Nat) : ∀ n : Nat, n < 2 ^ k → popCount n ≤ k := by
  induction k with
  | zero =>
    intro n hn
    have h0 : n = 0 := by omega
    subst h0
    rw [popCount]
    simp
  | succ k ih =>
    intro n hn
    by_cases h0 : n = 0
    · subst h0
      rw [popCount]
      simp
    · rw [popCount, dif_neg h0]
      have h1 : n / 2 < 2 ^ k := by
        rw [pow_succ] at hn
        omega
      have h2 := ih (n / 2) h1
      omega

theorem invP_claimInv (st : PortState) (hms : st.max_slots ≤ 32) (h : InvP st) :
    claimInv st := by
  obtain ⟨htag, hip⟩ := h
  constructor
  · exact popCount_le st.max_slots st.inprogress hip
  · apply Nat.eq_of_testBit_eq
    intro j
    rw [Nat.zero_testBit, Nat.testBit_and, testBit_not32, Nat.shiftLeft_eq, one_mul,
      Nat.testBit_two_pow_sub_one]
    by_cases hj : j < st.max_slots
    · simp [hj, (by omega : j < 32)]
    · have hb : st.inprogress.testBit j = false :=
        Nat.testBit_lt_two_pow
          (lt_of_lt_of_le hip (Nat.pow_le_pow_right (by norm_num) (by omega)))
      simp [hb]

theorem start_command_InvP (st : PortState) (u : Nat) (h : InvP st) :
    InvP (start_command st u).2 := by
  obtain ⟨htag, hip⟩ := h
  refine ⟨Nat.mod_lt _ (by omega), ?_⟩
  show st.inprogress ||| (1 <<< st.tag) < 2 ^ st.max_slots
  refine Nat.or_lt_two_pow hip ?_
  rw [Nat.shiftLeft_eq, one_mul]
  exact Nat.pow_lt_pow_right (by norm_num) htag

theorem eqMeta_InvP {a b : PortState} (he : eqMeta a b) (h : InvP b) : InvP a := by
  obtain ⟨_, h2, _, _, _, _, h7, _, _, h10, _, _⟩ := he
  exact ⟨by rw [h7, h2]; exact h.1, by rw [h10, h2]; exact h.2⟩

theorem add_prd_eqMeta (env : HostEnv) (st : PortState) (buffer count : Nat) :
    ∀ r ∈ add_prd env st buffer count, eqMeta r.2 st := by
  intro r hr
  rw [Option.mem_def] at hr
  simp only [add_prd] at hr
  split_ifs at hr
  · cases Option.some.inj hr
    exact eqMeta_refl st
  · cases Option.some.inj hr
    simp [eqMeta]

theorem identify_InvP (env : HostEnv) (ie : IdentEnv) (st : PortState) (h : InvP st) :
    ∀ r ∈ identify_drive env ie st, InvP r.2 := by
  intro r hr
  rw [Option.mem_def] at hr
  have h1 : InvP (set_command env st 0xec 0 true 0 false 0 0) :=
    eqMeta_InvP (set_command_eqMeta env st _ _ _ _ _ _ _) h
  cases hadd : add_prd env (set_command env st 0xec 0 true 0 false 0 0) ie.bufAddr 512 with
  | none => simp [identify_drive, hadd] at hr
  | some rp =>
    obtain ⟨b1, st2⟩ := rp
    have h2 : InvP st2 :=
      eqMeta_InvP
        (add_prd_eqMeta env _ ie.bufAddr 512 (b1, st2) (by rw [Option.mem_def, hadd])) h1
    have h3 : InvP (start_command st2 0).2 := start_command_InvP st2 0 h2
    simp only [identify_drive, hadd] at hr
    split_ifs at hr with hc hw
    · cases Option.some.inj hr
      exact ⟨h3.1, h3.2⟩
    · cases Option.some.inj hr
      exact ⟨h3.1, lt_of_le_of_lt Nat.and_le_left h3.2⟩

theorem set_features_InvP (env : HostEnv) (b : Bool) (st : PortState) (f c : Nat)
    (h : InvP st) : InvP (set_features env b st f c).2 := by
  have h1 : InvP (set_command env st 0xef 0 false c false 0 f) :=
    eqMeta_InvP (set_command_eqMeta env st _ _ _ _ _ _ _) h
  have h3 := start_command_InvP (set_command env st 0xef 0 false c false 0 f) 0 h1
  simp only [set_features]
  split_ifs with hb
  · exact h3
  · exact ⟨h3.1, lt_of_le_of_lt Nat.and_le_left h3.2⟩

theorem initRest_pres (env : HostEnv) (ev : InitEnv) (st : PortState)
    (htag : st.tag < st.max_slots) :
    ∀ r ∈ initRest env ev st,
      (r.2.inprogress = st.inprogress ∧ r.2.tag = st.tag ∧
        r.2.max_slots = st.max_slots) ∨ InvP r.2 := by
  intro r hr
  rw [Option.mem_def] at hr
  simp only [initRest] at hr
  split_ifs at hr with h3 h4
  · cases Option.some.inj hr
    left
    refine ⟨?_, ?_, ?_⟩ <;>
      simp only [logw_inprogress, logwait_inprogress, logw_tag, logwait_tag,
        logw_max_slots, logwait_max_slots]
  · cases Option.some.inj hr
    left
    refine ⟨?_, ?_, ?_⟩ <;>
      simp only [logw_inprogress, logwait_inprogress, logw_tag, logwait_tag,
        logw_max_slots, logwait_max_slots]
  · right
    refine identify_InvP env ev.ident _ ?_ r (Option.mem_def.mpr hr)
    constructor
    · simp only [logw_tag, logwait_tag, izero_tag, logw_max_slots, logwait_max_slots,
        izero_max_slots]
      exact htag
    · simp only [logw_inprogress, logwait_inprogress, izero_inprogress, logw_max_slots,
        logwait_max_slots, izero_max_slots]
      positivity

theorem init_pres (env : HostEnv) (ev : InitEnv) (st : PortState)
    (htag : st.tag < st.max_slots) :
    ∀ r ∈ init env ev st,
      (r.2.inprogress = st.inprogress ∧ r.2.tag = st.tag ∧
        r.2.max_slots = st.max_slots) ∨ InvP r.2 := by
  intro r hr
  rw [Option.mem_def] at hr
  simp only [init] at hr
  split_ifs at hr with hc hw1 hw2
  · cases Option.some.inj hr
    left
    refine ⟨?_, ?_, ?_⟩ <;>
      simp only [logw_inprogress, logwait_inprogress, logw_tag, logwait_tag,
        logw_max_slots, logwait_max_slots]
  · cases Option.some.inj hr
    left
    refine ⟨?_, ?_, ?_⟩ <;>
      simp only [logw_inprogress, logwait_inprogress, logw_tag, logwait_tag,
        logw_max_slots, logwait_max_slots]
  · have hres := initRest_pres env ev _
      (by simp only [logw_tag, logwait_tag, logw_max_slots, logwait_max_slots]
          exact htag) r (Option.mem_def.mpr hr)
    rcases hres with ⟨hip, htg, hms⟩ | hP
    · left
      refine ⟨?_, ?_, ?_⟩
      · rw [hip]
        simp only [logw_inprogress, logwait_inprogress]
      · rw [htg]
        simp only [logw_tag, logwait_tag]
      · rw [hms]
        simp only [logw_max_slots, logwait_max_slots]
    · right
      exact hP
  · exact initRest_pres env ev st htag r (Option.mem_def.mpr hr)

theorem init_InvP (env : HostEnv) (ev : InitEnv) (st : PortState) (h : InvP st) :
    ∀ r ∈ init env ev st, InvP r.2 := by
  intro r hr
  rcases init_pres env ev st h.1 r hr with ⟨hip, htg, hms⟩ | hP
  · exact ⟨by rw [htg, hms]; exact h.1, by rw [hip, hms]; exact h.2⟩
  · exact hP

theorem irqLoop_ip_le (dn : Nat) : ∀ (done : Nat) (ut : List Nat) (ip : Nat),
    (irqLoop dn done ut ip).2.2 ≤ ip := by
  intro done
  induction done using Nat.strong_induction_on with
  | _ done ih =>
    intro ut ip
    by_cases h0 : done = 0
    · subst h0
      rw [irqLoop]
      simp
    · rw [irqLoop]
      simp only [dif_neg h0]
      exact le_trans (ih _ (and_not32_bsf_lt done h0) _ _) Nat.and_le_left

theorem irq_pres (env : HostEnv) (ev : IrqEnv) (st : PortState) (h : InvP st) :
    ∀ r ∈ irq env ev st, InvP r.2 := by
  intro r hr
  rw [Option.mem_def] at hr
  simp only [irq] at hr
  split_ifs at hr with htfd
  · split at hr
    · exact Option.noConfusion hr
    · next rr heq =>
      cases Option.some.inj hr
      refine init_InvP env ev.initEv _ ?_ rr (Option.mem_def.mpr heq)
      constructor
      · simp only [logw_tag, logw_max_slots]
        exact h.1
      · simp only [logw_max_slots]
        refine lt_of_le_of_lt (irqLoop_ip_le _ _ _ _) ?_
        simp only [logw_inprogress]
        exact h.2
  · cases Option.some.inj hr
    constructor
    · simp only [logw_tag, logw_max_slots]
      exact h.1
    · simp only [logw_max_slots]
      refine lt_of_le_of_lt (irqLoop_ip_le _ _ _ _) ?_
      simp only [logw_inprogress]
      exact h.2

theorem receive_pres (env : HostEnv) (st : PortState) (msg : MessageDisk) (h : InvP st) :
    ∀ r ∈ receive env st msg, InvP r.2 := by
  intro r hr
  rw [Option.mem_def] at hr
  obtain ⟨mt, mdn, mtag, msec, mdma, mpo, mps⟩ := msg
  cases mt <;> simp only [receive] at hr <;> split_ifs at hr <;>
    first
    | (cases Option.some.inj hr; first
        | exact h
        | (exact eqMeta_InvP (eqMeta_trans (dmaLoop_eqMeta env mpo mps mdma _)
            (set_command_eqMeta env st _ _ _ _ _ _ _)) h)
        | (refine start_command_InvP _ _ ?_
           exact eqMeta_InvP (eqMeta_trans (dmaLoop_eqMeta env mpo mps mdma _)
             (set_command_eqMeta env st _ _ _ _ _ _ _)) h)
        | (exact start_command_InvP _ _
            (eqMeta_InvP (set_command_eqMeta env st _ _ _ _ _ _ _) h)))
    | cases hr

/-- C7 (amended): `max_slots = ((CAP >> 8) & 0x1F) + 1` lies in 1..32;
the constructor initialises only the round-robin cursor (`_tag` = 0),
leaving `_inprogress` unconstrained, so the invariant need not hold
right after construction; from the `_inprogress = 0` reset inside
`init` onwards the internal invariant (cursor in range, only bits below
`max_slots` set) holds, it implies the claim's formula
`popcount(in_progress) ≤ max_slots ∧
in_progress & ~((1 << max_slots) - 1) = 0`, and it is preserved by
`receive`, `start_command`, `identify_drive`, `set_features`, `irq`,
and by `init` (which either leaves `_inprogress` untouched on an early
timeout or establishes the invariant). -/
theorem c7_invariant :
    (∀ cap, 1 ≤ slotsOfCap cap ∧ slotsOfCap cap ≤ 32) ∧
    (∀ d m dm cb ctb fb gcl gct gut gip l48,
      (mkPort d m dm cb ctb fb gcl gct gut gip l48).tag = 0 ∧
      (mkPort d m dm cb ctb fb gcl gct gut gip l48).inprogress = gip) ∧
    (∀ st : PortState, st.max_slots ≤ 32 → InvP st → claimInv st) ∧
    (∀ (env : HostEnv) (st : PortState) (msg : MessageDisk), InvP st →
      ∀ r ∈ receive env st msg, InvP r.2) ∧
    (∀ (st : PortState) (u : Nat), InvP st → InvP (start_command st u).2) ∧
    (∀ (env : HostEnv) (ie : IdentEnv) (st : PortState), InvP st →
      ∀ r ∈ identify_drive env ie st, InvP r.2) ∧
    (∀ (env : HostEnv) (b : Bool) (st : PortState) (f c : Nat), InvP st →
      InvP (set_features env b st f c).2) ∧
    (∀ (env : HostEnv) (ev : InitEnv) (st : PortState), st.tag < st.max_slots →
      ∀ r ∈ init env ev st,
        (r.2.inprogress = st.inprogress ∧ r.2.tag = st.tag ∧
          r.2.max_slots = st.max_slots) ∨ InvP r.2) ∧
    (∀ (env : HostEnv) (ev : IrqEnv) (st : PortState), InvP st →
      ∀ r ∈ irq env ev st, InvP r.2) := by
  refine ⟨?_, ?_, invP_claimInv, receive_pres, start_command_InvP, identify_InvP,
    set_features_InvP, init_pres, irq_pres⟩
  · intro cap
    constructor
    · simp [slotsOfCap]
    · have h1 : (cap >>> 8) &&& 0x1f ≤ 0x1f := Nat.and_le_right
      simp only [slotsOfCap]
      omega
  · intro d m dm cb ctb fb gcl gct gut gip l48
    exact ⟨rfl, rfl⟩

/-- C7, counterexample: the constructor does not initialise
`_inprogress`; a freshly constructed port whose uninitialised
`_inprogress` happens to read 0xFFFFFFFF with `max_slots` = 1 violates
the claimed invariant. -/
theorem c7_ctor_cex :
    ¬claimInv (mkPort 0 1 true 0 0 0 [] [] [] (U32 - 1) false) :=
  fun h => absurd h.2 (by decide)

/-! ### Witnesses: each claim theorem applied at a concrete input -/

set_option maxRecDepth 20000 in
/-- Witness for C1 at `env0`, `ev0`, `st0`. -/
theorem c1_completion_commits_witness :
    ((ev0.tfdv &&& 1 ≠ 1 →
      ∃ st', irq env0 ev0 st0 =
        some ((bitIndices (st0.inprogress &&& not32 ev0.civ)).map
          (fun t => ⟨st0.disknr, st0.usertags.getD t 0, DiskStatus.ok⟩), st') ∧
      st'.inprogress = st0.inprogress &&& ev0.civ ∧
      (∀ j, j < 32 → (st0.inprogress &&& not32 ev0.civ).testBit j →
        st'.usertags.getD j 0 = U32 - 1) ∧
      (∀ j, j < 32 → ¬(st0.inprogress &&& not32 ev0.civ).testBit j →
        st'.usertags.getD j 0 = st0.usertags.getD j 0)) ∧
    (∀ msg : MessageDisk, (msg.type = DiskOp.read ∨ msg.type = DiskOp.write) →
      msg.disknr = st0.disknr →
      ∀ st2, receive env0 st0 msg = some (true, st2) →
        st2.usertags.getD st0.tag 0 = msg.usertag) ∧
    (∀ msg : MessageDisk, msg.type = DiskOp.flush_cache → msg.disknr = st0.disknr →
      ∃ st2, receive env0 st0 msg = some (true, st2) ∧
        st2.usertags.getD st0.tag 0 = 0)) :=
  c1_completion_commits env0 ev0 st0 (by decide)

set_option maxRecDepth 20000 in
/-- Witness for C2 at `env0`, `evI0`, `st0`. -/
theorem c2_identify_slot_witness :
    ((∀ code stR, init env0 evI0 st0 = some (code, stR) →
      fisCommandByte stR st0.tag = 0xec ∧
      stR.cl.getD (st0.tag * CL_DWORDS) 0 >>> 16 = 1 ∧
      stR.ct.getD (prdIndex st0.tag 0) 0 = addr2phys env0 st0.dmar evI0.ident.bufAddr ∧
      stR.ct.getD (prdIndex st0.tag 0 + 3) 0 = 511 ∧
      stR.waits.getLast? = some ⟨RegName.ci, (1 <<< st0.tag) % U32, 0⟩) ∧
    (evI0.ident.bufWord2 = 0xc837 → ∃ code stR, init env0 evI0 st0 = some (code, stR)) ∧
    (st0.tag = 0 → (1 <<< st0.tag) % U32 = 1 <<< 0)) :=
  c2_identify_slot env0 evI0 st0 (by decide) rfl rfl rfl rfl

/-- Witness for C3 at PI with bit 30 set and ABAR `0x7f001000`. -/
theorem c3_high_ports_witness :
    ((((1 <<< 30 : Nat)).testBit 30 ∨ ((1 <<< 30 : Nat)).testBit 31) ↔
      (1 <<< 30 : Nat) >>> 30 ≠ 0) ∧
    ((1 <<< 30 : Nat) >>> 30 ≠ 0 →
      hba_high_ports (1 <<< 30) 0x7f001000 (fun a _ => a) =
        some (0x7f001000 + 0x1000, 0x1000,
          (fun (a : Nat) (_ : Nat) => a) (0x7f001000 + 0x1000) 0x1000 +
            (0x7f001000 &&& 0xfe0))) ∧
    ((1 <<< 30 : Nat) >>> 30 = 0 →
      hba_high_ports (1 <<< 30) 0x7f001000 (fun a _ => a) = none) :=
  c3_high_ports (1 <<< 30) 0x7f001000 (fun a _ => a) (by decide)

set_option maxRecDepth 20000 in
/-- Witness for C4 at `env0`, `st0` and a READ message. -/
theorem c4_command_bytes_witness :
    (((⟨DiskOp.read, 0, 7, 1, [], 0, 0⟩ : MessageDisk).type = DiskOp.read →
      ∃ b st', receive env0 st0 ⟨DiskOp.read, 0, 7, 1, [], 0, 0⟩ = some (b, st') ∧
        fisCommandByte st' st0.tag = if st0.lba48 then 0x25 else 0xc8) ∧
    ((⟨DiskOp.read, 0, 7, 1, [], 0, 0⟩ : MessageDisk).type = DiskOp.write →
      ∃ b st', receive env0 st0 ⟨DiskOp.read, 0, 7, 1, [], 0, 0⟩ = some (b, st') ∧
        fisCommandByte st' st0.tag = if st0.lba48 then 0x35 else 0xca) ∧
    ((⟨DiskOp.read, 0, 7, 1, [], 0, 0⟩ : MessageDisk).type = DiskOp.flush_cache →
      ∃ st', receive env0 st0 ⟨DiskOp.read, 0, 7, 1, [], 0, 0⟩ = some (true, st') ∧
        fisCommandByte st' st0.tag = (if st0.lba48 then 0xea else 0xe7) ∧
        st'.cl.getD (st0.tag * CL_DWORDS) 0 >>> 16 = 0)) :=
  c4_command_bytes env0 st0 ⟨DiskOp.read, 0, 7, 1, [], 0, 0⟩ (by decide) (by decide)
    (by decide)

set_option maxRecDepth 20000 in
/-- Witness for C5 at `env0`, `st0`, pointer 6 and byte count 2. -/
theorem c5_add_dma_prd_witness :
    (((2 % 2 = 1 ∨ 2 ^ 22 ≤ 2) →
      add_dma env0 st0 6 2 = (true, st0) ∧ add_prd env0 st0 6 2 = none) ∧
    (2 % 2 = 0 → 2 < 2 ^ 22 →
      st0.cl.getD (st0.tag * CL_DWORDS) 0 >>> 16 = MAX_PRD_COUNT →
      add_dma env0 st0 6 2 = (true, st0) ∧ add_prd env0 st0 6 2 = some (true, st0)) ∧
    (2 % 2 = 0 → 2 < 2 ^ 22 →
      st0.cl.getD (st0.tag * CL_DWORDS) 0 >>> 16 < MAX_PRD_COUNT →
      ∃ st2,
        add_dma env0 st0 6 2 = (false, st2) ∧
        add_prd env0 st0 6 2 = some (false, st2) ∧
        st2.cl.getD (st0.tag * CL_DWORDS) 0 >>> 16 =
          st0.cl.getD (st0.tag * CL_DWORDS) 0 >>> 16 + 1 ∧
        st2.ct.getD (prdIndex st0.tag (st0.cl.getD (st0.tag * CL_DWORDS) 0 >>> 16)) 0 =
          addr2phys env0 st0.dmar 6 ∧
        st2.ct.getD (prdIndex st0.tag (st0.cl.getD (st0.tag * CL_DWORDS) 0 >>> 16) + 1) 0
          = 0 ∧
        st2.ct.getD (prdIndex st0.tag (st0.cl.getD (st0.tag * CL_DWORDS) 0 >>> 16) + 3) 0
          = sub1_32 2 ∧
        (0 < 2 → sub1_32 2 = 2 - 1))) :=
  c5_add_dma_prd env0 st0 6 2 (by decide)

set_option maxRecDepth 20000 in
/-- Witness for C6 at `env0`, `st0` and a READ with a 1-byte descriptor. -/
theorem c6_unaligned_witness :
    (receive env0 st0 ⟨DiskOp.read, 0, 0, 0, [⟨0, 1⟩], 0, 64⟩ = some (false, st0) ∧
    sum_length [⟨0, 1⟩] &&& 0x1ff = sum_length [⟨0, 1⟩] % 512) :=
  c6_unaligned env0 st0 ⟨DiskOp.read, 0, 0, 0, [⟨0, 1⟩], 0, 64⟩ (Or.inl rfl) (by decide)

/-- Witness for C8 with the stable register `fun _ => 4`, the identity
clock, mask = value = 4 and fuel 200. -/
theorem c8_wait_timeout_witness :
    ((wait_timeout (fun _ => 4) (fun i => i) 4 4 200 = 0 ↔ (4 : Nat) &&& 4 = 4) ∧
    (wait_timeout (fun _ => 4) (fun i => i) 4 4 200 = 1 ↔ (4 : Nat) &&& 4 ≠ 4) ∧
    ((4 : Nat) &&& 4 = 4 →
      waitExit (fun _ => 4) (fun i => i) 4 4 (0 + TIMEOUT) 200 0 = 0) ∧
    ((4 : Nat) &&& 4 ≠ 4 →
      0 + TIMEOUT ≤ waitExit (fun _ => 4) (fun i => i) 4 4 (0 + TIMEOUT) 200 0 + 1)) :=
  c8_wait_timeout (fun _ => 4) (fun i => i) 4 4 200 4 (fun _ => rfl)
    (fun i => Nat.lt_succ_self i) (by decide)

set_option maxRecDepth 20000 in
/-- Witness for C9 at `env0`, `st0` and a READ whose single descriptor
(512 bytes at offset 0) exceeds the 256-byte region. -/
theorem c9_partial_failure_witness :
    (∃ st', receive env0 st0 ⟨DiskOp.read, 0, 0, 0, [⟨0, 512⟩], 0, 256⟩ =
        some (false, st') ∧
      st'.inprogress = st0.inprogress ∧ st'.tag = st0.tag ∧
      st'.usertags = st0.usertags ∧ st'.mmio = st0.mmio ∧
      st'.cl.getD (st0.tag * CL_DWORDS) 0 =
        (if (⟨DiskOp.read, 0, 0, 0, [⟨0, 512⟩], 0, 256⟩ : MessageDisk).type =
            DiskOp.write then 0x45 else 5) + 0 * 65536 ∧
      st'.ct.getD (ctSlot st0.tag) 0 =
        0x27 + 0x80 * 0x100 +
          (if (⟨DiskOp.read, 0, 0, 0, [⟨0, 512⟩], 0, 256⟩ : MessageDisk).type =
              DiskOp.write then (if st0.lba48 then 0x35 else 0xca)
            else (if st0.lba48 then 0x25 else 0xc8)) * 0x10000) :=
  c9_partial_failure env0 st0 ⟨DiskOp.read, 0, 0, 0, [⟨0, 512⟩], 0, 256⟩ 0 (by decide)
    (by decide) (Or.inl rfl) (by decide) (by decide) (by decide)
    (fun j hj => absurd hj (by omega))

set_option maxRecDepth 20000 in
/-- Witness for C10 at `env0`, `st0` and a zero-byte descriptor at
offset 0 of a 4096-byte region. -/
theorem c10_zero_count_witness :
    ((∃ st', receive env0 st0 ⟨DiskOp.read, st0.disknr, 0, 0, [⟨0, 0⟩], 0, 4096⟩ =
        some (true, st') ∧
      st'.cl.getD (st0.tag * CL_DWORDS) 0 >>> 16 = 1 ∧
      st'.ct.getD (prdIndex st0.tag 0 + 3) 0 = U32 - 1) ∧
    (∀ ptr, st0.cl.getD (st0.tag * CL_DWORDS) 0 >>> 16 < MAX_PRD_COUNT →
      ∃ st2, add_dma env0 st0 ptr 0 = (false, st2) ∧
        st2.cl.getD (st0.tag * CL_DWORDS) 0 >>> 16 =
          st0.cl.getD (st0.tag * CL_DWORDS) 0 >>> 16 + 1 ∧
        st2.ct.getD (prdIndex st0.tag (st0.cl.getD (st0.tag * CL_DWORDS) 0 >>> 16) + 3) 0
          = U32 - 1)) :=
  c10_zero_count env0 st0 0 0 0 4096 0 (by decide) (by decide)

end Ahci
